import Mathlib

/-!
Verification of the mesh data structures and simplification routines of
png23d (src/mesh.c) as a shallow embedding.

Coordinates are modelled exactly, over an arbitrary linear ordered
commutative ring with decidable order (the float values of the C code are
rational numbers, so `α = ℚ` instantiates the model to the exact semantics
of the source; concrete evaluations below use `α = ℤ`).

The dense facet array and the vertex array are modelled as lists; a facet is
identified by its current position in the dense array, mirroring the
pointer-into-dense-array identity used by the C code, in which incidence
lists hold facet pointers and facet removal swaps the last facet into the
freed slot.
-/

set_option maxRecDepth 8000
set_option linter.unusedSectionVars false

/-- A 3D point / vector (`struct pnt` in mesh.c, float coordinates modelled
as exact ring elements). -/
@[ext]
structure Pnt (α : Type) where
  x : α
  y : α
  z : α
deriving DecidableEq, Repr

variable {α : Type} [LinearOrderedCommRing α] [DecidableEq α]
  [DecidableRel ((· < ·) : α → α → Prop)] [FloorRing α]

instance : Inhabited (Pnt α) := ⟨⟨0, 0, 0⟩⟩

/-- The zero vector. -/
def pntZero : Pnt α := ⟨0, 0, 0⟩

/-- `eqpnt` from mesh.c: are two points the same location. -/
def eqpnt (p0 p1 : Pnt α) : Bool :=
  decide (p0.x = p1.x) && decide (p0.y = p1.y) && decide (p0.z = p1.z)

/-- `nepnt` from mesh.c: are two points different locations. -/
def nepnt (p0 p1 : Pnt α) : Bool :=
  decide (p0.x ≠ p1.x) || decide (p0.y ≠ p1.y) || decide (p0.z ≠ p1.z)

/-- The implicit conversion applied to `dot_product`'s return value: the C
function is declared `int` over float points, so the float sum is truncated
toward zero on return (C11 6.3.1.4). -/
def int_trunc (x : α) : ℤ :=
  if 0 ≤ x then ⌊x⌋ else ⌈x⌉

/-- `dot_product` from mesh.c: declared `static inline int`, so the exact
dot product of the float points is truncated toward zero. -/
def dot_product (a b : Pnt α) : ℤ :=
  int_trunc (a.x * b.x + a.y * b.y + a.z * b.z)

/-- `cross_product` from mesh.c. -/
def cross_product (a b : Pnt α) : Pnt α :=
  ⟨a.y * b.z - a.z * b.y, a.z * b.x - a.x * b.z, a.x * b.y - a.y * b.x⟩

/-- Pointwise subtraction of points, as computed inline in `pnt_normal`. -/
def psub (a b : Pnt α) : Pnt α := ⟨a.x - b.x, a.y - b.y, a.z - b.z⟩

/-- Scalar multiple of a vector (used to state linear dependence of edge
vectors, i.e. collinearity of the corners). -/
def pscale (c : α) (a : Pnt α) : Pnt α := ⟨c * a.x, c * a.y, c * a.z⟩

/-- Pointwise addition of vectors (used to state linear dependence). -/
def padd (a b : Pnt α) : Pnt α := ⟨a.x + b.x, a.y + b.y, a.z + b.z⟩

/-- `pnt_normal` from mesh.c: the surface normal of the triangle
`(v0, v1, v2)`, computed as `(v1-v0) × (v2-v0)`, together with the
degeneracy flag (`true` iff the normal is the zero vector). -/
def pnt_normal (v0 v1 v2 : Pnt α) : Pnt α × Bool :=
  let a := psub v1 v0
  let b := psub v2 v0
  let n : Pnt α := ⟨a.y * b.z - a.z * b.y, a.z * b.x - a.x * b.z, a.x * b.y - a.y * b.x⟩
  (n, decide (n.x = 0) && decide (n.y = 0) && decide (n.z = 0))

/-- `same_normal` from mesh.c: two vectors are parallel and of the same
sign magnitude. -/
def same_normal (n1 n2 : Pnt α) : Bool :=
  if dot_product n1 n2 < 0 then false
  else if ¬(cross_product n1 n2 = pntZero) then false
  else true

/-- `struct facet` from mesh.h/mesh.c: three corner coordinates, three
corner indices into the vertex array, and the cached surface normal. -/
structure Facet (α : Type) where
  v0 : Pnt α
  v1 : Pnt α
  v2 : Pnt α
  i0 : ℕ
  i1 : ℕ
  i2 : ℕ
  n : Pnt α
deriving DecidableEq, Repr

instance : Inhabited (Facet α) := ⟨⟨default, default, default, 0, 0, 0, default⟩⟩

/-- `struct vertex`: a coordinate and the incidence list of facets
(referenced by their position in the dense facet array, as the C code
references them by pointer into that array). -/
structure Vertex (α : Type) where
  pnt : Pnt α
  facets : List ℕ
deriving DecidableEq, Repr

instance : Inhabited (Vertex α) := ⟨⟨default, []⟩⟩

/-- `struct mesh`: the dense array of live facets (`f`, the first `fcount`
entries of the C array) and the vertex array (`p`). -/
structure Mesh (α : Type) where
  f : List (Facet α)
  p : List (Vertex α)
deriving DecidableEq, Repr

/-- Modelled from the spec: the fixed maximum valence `FACETPNT_CNT` is
defined in mesh.h, which is not part of the available sources; the spec
fixes no numeric value, and none of the theorems below depends on the
particular choice. -/
def FACETPNT_CNT : ℕ := 16

/-- The vertex at index `v` (`mesh->p + v`; out-of-range reads, which are
undefined behaviour in C, return a default vertex). -/
def vtx (m : Mesh α) (v : ℕ) : Vertex α := m.p.getD v default

/-- The facet at position `k` of the dense array (`mesh->f + k`). -/
def fct (m : Mesh α) (k : ℕ) : Facet α := m.f.getD k default

/-- The three corner indices of a facet (`facet->i[0..2]`). -/
def corners (f : Facet α) : List ℕ := [f.i0, f.i1, f.i2]

/-- Replace the vertex at index `v`. -/
def setVtx (m : Mesh α) (v : ℕ) (vx : Vertex α) : Mesh α :=
  { m with p := m.p.set v vx }

/-- Remove the first occurrence of `k` from a list, reporting failure when
it is absent: the loop of `remove_facet_from_vertex` in mesh.c. -/
def remove_first (k : ℕ) : List ℕ → Option (List ℕ)
  | [] => none
  | x :: xs => if x = k then some xs else (remove_first k xs).map (fun l => x :: l)

/-- `remove_facet_from_vertex` from mesh.c: drop facet `k` from the
vertex's incidence list, shifting later entries down; returns `false` (and
leaves the vertex unchanged) when the facet is not in the list. -/
def remove_facet_from_vertex (k : ℕ) (vx : Vertex α) : Bool × Vertex α :=
  match remove_first k vx.facets with
  | none => (false, vx)
  | some l => (true, { vx with facets := l })

/-- Detach facet `k` from the incidence list of vertex `v` (a call
`remove_facet_from_vertex(facet, mesh->p + v)`, ignoring the result as
`remove_facet` does). -/
def detach (m : Mesh α) (k v : ℕ) : Mesh α :=
  setVtx m v (remove_facet_from_vertex k (vtx m v)).2

/-- Append facet `k` to the incidence list of vertex `v`
(`mesh->p[v].facets[mesh->p[v].fcount++] = facet`). -/
def attach (m : Mesh α) (v k : ℕ) : Mesh α :=
  setVtx m v { vtx m v with facets := (vtx m v).facets ++ [k] }

/-- `remove_facet` from mesh.c: detach the facet at position `k` from its
three corner vertices, then move the last live facet into the freed slot
(fixing up that facet's three vertices' incidence lists) and shrink the
live count. -/
def remove_facet (m : Mesh α) (k : ℕ) : Mesh α :=
  let f0 := fct m k
  let m1 := detach (detach (detach m k f0.i0) k f0.i1) k f0.i2
  let last := m1.f.length - 1
  if k = last then { m1 with f := m1.f.dropLast }
  else
    let rf := fct m1 last
    let m2 : Mesh α := { m1 with f := (m1.f.set k rf).dropLast }
    let m3 := detach (detach (detach m2 last rf.i0) last rf.i1) last rf.i2
    attach (attach (attach m3 rf.i0 k) rf.i1 k) rf.i2 k

/-- The corner-retargeting head of `move_facet_vertex`: replace the first
corner index equal to `frm` by `to`, copying `to`'s coordinate into the
facet; `none` when no corner matches (the `return false` branch). -/
def retarget (f : Facet α) (frm dst : ℕ) (tp : Pnt α) : Option (Facet α) :=
  if f.i0 = frm then some { f with i0 := dst, v0 := tp }
  else if f.i1 = frm then some { f with i1 := dst, v1 := tp }
  else if f.i2 = frm then some { f with i2 := dst, v2 := tp }
  else none

/-- `move_facet_vertex` from mesh.c: retarget the corner of facet `k` that
equals `frm` to `to`, add the facet to `to`'s incidence list, remove it
from `frm`'s, and recompute the cached normal; returns `false` when no
corner matched, when removal from `frm` failed, or when the recomputed
triangle is degenerate (in the last two cases the mesh has already been
partially updated, exactly as in the C code). -/
def move_facet_vertex (m : Mesh α) (k frm dst : ℕ) : Bool × Mesh α :=
  match retarget (fct m k) frm dst (vtx m dst).pnt with
  | none => (false, m)
  | some f1 =>
    let m1 : Mesh α := { m with f := m.f.set k f1 }
    let m2 := attach m1 dst k
    match remove_first k (vtx m2 frm).facets with
    | none => (false, m2)
    | some l =>
      let m3 := setVtx m2 frm { vtx m2 frm with facets := l }
      let nd := pnt_normal f1.v0 f1.v1 f1.v2
      let m4 : Mesh α := { m3 with f := m3.f.set k { f1 with n := nd.1 } }
      (!nd.2, m4)

/-- `facet_on_vertex` from mesh.c: is facet `k` in the incidence list of
the given vertex. -/
def facet_on_vertex (k : ℕ) (vx : Vertex α) : Bool := vx.facets.contains k

/-- One iteration of the `merge_edge` loop body: process the head of
`tgt`'s incidence list, removing it when it is also on `strt` (a facet
that would become a zero-area duplicate) and otherwise moving its `tgt`
corner to `strt`. -/
def merge_step (m : Mesh α) (strt tgt : ℕ) : Mesh α :=
  match (vtx m tgt).facets with
  | [] => m
  | k :: _ =>
    if facet_on_vertex k (vtx m strt) then remove_facet m k
    else (move_facet_vertex m k tgt strt).2

/-- The `while (mesh->p[end].fcount > 0)` loop of `merge_edge`, with
explicit fuel (the C loop terminates because each iteration shortens the
list, which is proved below). -/
def merge_loop : ℕ → Mesh α → ℕ → ℕ → Mesh α
  | 0, m, _, _ => m
  | fuel + 1, m, strt, tgt =>
    if (vtx m tgt).facets.isEmpty then m
    else merge_loop fuel (merge_step m strt tgt) strt tgt

/-- `merge_edge` from mesh.c: move every facet on vertex `tgt` over to
vertex `strt`, deleting the facets shared by both (the initial length of
`tgt`'s incidence list bounds the iteration count, as proved below). -/
def merge_edge (m : Mesh α) (strt tgt : ℕ) : Mesh α :=
  merge_loop ((vtx m tgt).facets.length) m strt tgt

/-- The consecutive-pair scan of `is_candidate`:
`same_normal` must hold between each adjacent pair of the incidence list. -/
def chain_ok (m : Mesh α) : List ℕ → Bool
  | f1 :: f2 :: rest => same_normal (fct m f1).n (fct m f2).n && chain_ok m (f2 :: rest)
  | _ => true

/-- `is_candidate` from mesh.c: every consecutive pair of facets on the
vertex has the same normal orientation. -/
def is_candidate (m : Mesh α) (v : ℕ) : Bool := chain_ok m ((vtx m v).facets)

/-- The corner simulation of `check_move_ok`: the triangle of facet `k`
with the first corner equal to `frm` relocated to `dst`'s coordinate;
`none` when no corner matches (the error branch of the C loop). -/
def sim_corners (m : Mesh α) (frm dst k : ℕ) : Option (Pnt α × Pnt α × Pnt α) :=
  let f0 := fct m k
  let tp := (vtx m dst).pnt
  if f0.i0 = frm then some (tp, f0.v1, f0.v2)
  else if f0.i1 = frm then some (f0.v0, tp, f0.v2)
  else if f0.i2 = frm then some (f0.v0, f0.v1, tp)
  else none

/-- The per-facet body of `check_move_ok`: a degenerate simulated triangle
is allowed only when two of its corners coincide, and a non-degenerate one
must keep the cached normal's orientation.  The `none` branch is the
`return false` taken when no corner matches. -/
def move_sim_ok (m : Mesh α) (frm dst k : ℕ) : Bool :=
  match sim_corners m frm dst k with
  | none => false
  | some (w0, w1, w2) =>
    let nd := pnt_normal w0 w1 w2
    if nd.2 then !(nepnt w0 w1 && nepnt w1 w2 && nepnt w2 w0)
    else same_normal nd.1 (fct m k).n

/-- `check_move_ok` from mesh.c: every facet incident on `frm` must
survive the simulated move of `frm` onto `to`. -/
def check_move_ok (m : Mesh α) (frm dst : ℕ) : Bool :=
  ((vtx m frm).facets).all (move_sim_ok m frm dst)

/-- The per-corner test of `find_adjacent`'s inner loop: skip the starting
vertex, non-candidates, corners whose merged valence
`(vtx->fcount + mesh->p[civtx].fcount) - 2` (computed in 32-bit unsigned
arithmetic) exceeds `FACETPNT_CNT`, and corners rejected by
`check_move_ok`. -/
def corner_ok (m : Mesh α) (ivtx fl civtx : ℕ) : Bool :=
  if civtx = ivtx then false
  else if !(is_candidate m civtx) then false
  else if FACETPNT_CNT < (fl + (vtx m civtx).facets.length + (2 ^ 32 - 2)) % 2 ^ 32 then false
  else check_move_ok m civtx ivtx

/-- The inner (per-corner) loop of `find_adjacent`. -/
def find_in_corners (m : Mesh α) (ivtx fl : ℕ) : List ℕ → Option ℕ
  | [] => none
  | c :: cs => if corner_ok m ivtx fl c then some c else find_in_corners m ivtx fl cs

/-- The outer (per-facet) loop of `find_adjacent`. -/
def find_adjacent_loop (m : Mesh α) (ivtx fl : ℕ) : List ℕ → Option ℕ
  | [] => none
  | k :: ks =>
    match find_in_corners m ivtx fl [(fct m k).i0, (fct m k).i1, (fct m k).i2] with
    | some c => some c
    | none => find_adjacent_loop m ivtx fl ks

/-- `find_adjacent` from mesh.c: scan the corners of every facet incident
on `ivtx` for the first suitable merge partner. -/
def find_adjacent (m : Mesh α) (ivtx : ℕ) : Option ℕ :=
  find_adjacent_loop m ivtx ((vtx m ivtx).facets.length) ((vtx m ivtx).facets)

/-- `mesh_add_facet` from mesh.c: append a triangle built from nine
coordinates to the dense facet array, computing and caching its normal;
degenerate triangles are not appended, and the degeneracy flag is
returned.  (The C code leaves the new facet's corner indices
uninitialised until `index_mesh`; the model sets them to `0`.) -/
def mesh_add_facet (m : Mesh α)
    (vx0 vy0 vz0 vx1 vy1 vz1 vx2 vy2 vz2 : α) : Bool × Mesh α :=
  let w0 : Pnt α := ⟨vx0, vy0, vz0⟩
  let w1 : Pnt α := ⟨vx1, vy1, vz1⟩
  let w2 : Pnt α := ⟨vx2, vy2, vz2⟩
  let nd := pnt_normal w0 w1 w2
  if nd.2 then (true, m)
  else (false, { m with f := m.f ++ [⟨w0, w1, w2, 0, 0, 0, nd.1⟩] })

/-- The linear search half of point deduplication: index of the first
vertex at the given location. -/
def find_pnt (q : Pnt α) : List (Vertex α) → Option ℕ
  | [] => none
  | w :: ws => if eqpnt w.pnt q then some 0 else (find_pnt q ws).map (fun i => i + 1)

/-- Modelled from the spec: `mesh_add_pnt` (in the repository's indexing
translation unit, which is not part of the available sources) resolves a
coordinate to a vertex slot, creating a new slot on first occurrence; the
probabilistic filter only accelerates the search and never produces a
false negative, so the observable behaviour is find-or-append. -/
def mesh_add_pnt (m : Mesh α) (q : Pnt α) : ℕ × Mesh α :=
  match find_pnt q m.p with
  | some i => (i, m)
  | none => (m.p.length, { m with p := m.p ++ [⟨q, []⟩] })

/-- The loop body of `index_mesh`: resolve the three corners of facet `k`
to vertex indices, record them in the facet, and append the facet to the
three vertices' incidence lists. -/
def index_facet (m : Mesh α) (k : ℕ) : Mesh α :=
  let f0 := fct m k
  let r0 := mesh_add_pnt m f0.v0
  let r1 := mesh_add_pnt r0.2 f0.v1
  let r2 := mesh_add_pnt r1.2 f0.v2
  let m3 : Mesh α :=
    { r2.2 with f := r2.2.f.set k { f0 with i0 := r0.1, i1 := r1.1, i2 := r2.1 } }
  attach (attach (attach m3 r0.1 k) r1.1 k) r2.1 k

/-- `index_mesh` from mesh.c: manufacture the point list and the indexed
geometry for every live facet. -/
def index_mesh (m : Mesh α) : Mesh α :=
  (List.range m.f.length).foldl index_facet m

/-- The total number of incidence-list entries, the termination measure of
the simplification loop. -/
def totalValence (m : Mesh α) : ℕ :=
  (m.p.map (fun vx => vx.facets.length)).sum

/-- One iteration of the `simplify_mesh` cursor loop: merge and stay when
the cursor's vertex is a candidate with a merge partner, advance
otherwise. -/
def simplify_step (s : Mesh α × ℕ) : Mesh α × ℕ :=
  if s.2 < s.1.p.length then
    if is_candidate s.1 s.2 then
      match find_adjacent s.1 s.2 with
      | some t => (merge_edge s.1 s.2 t, s.2)
      | none => (s.1, s.2 + 1)
    else (s.1, s.2 + 1)
  else s

/-- The `while (vloop < mesh->pcount)` loop of `simplify_mesh`, with
explicit fuel (termination of the C loop is proved below). -/
def simplify_loop : ℕ → Mesh α × ℕ → Mesh α × ℕ
  | 0, s => s
  | fuel + 1, s =>
    if s.2 < s.1.p.length then simplify_loop fuel (simplify_step s) else s

/-- `simplify_mesh` from mesh.c: index the mesh when not yet indexed, then
run the cursor loop (the fuel is sufficient, as proved below). -/
def simplify_mesh (m : Mesh α) : Mesh α :=
  let m0 := if m.p.isEmpty then index_mesh m else m
  (simplify_loop (totalValence m0 + m0.p.length) (m0, 0)).1

/-- The incidence invariant of the indexed mesh, together with the
structural facts that maintain it: every incidence entry denotes a live
facet, incidence lists are duplicate-free, corner indices are in range and
pairwise distinct, and a facet is on a vertex's incidence list iff that
vertex's index is among the facet's corner indices. -/
def MeshInv (m : Mesh α) : Prop :=
  (∀ v < m.p.length, ∀ k ∈ (vtx m v).facets, k < m.f.length) ∧
  (∀ v < m.p.length, ((vtx m v).facets).Nodup) ∧
  (∀ k < m.f.length, (fct m k).i0 < m.p.length ∧ (fct m k).i1 < m.p.length ∧
      (fct m k).i2 < m.p.length) ∧
  (∀ k < m.f.length, (fct m k).i0 ≠ (fct m k).i1 ∧ (fct m k).i1 ≠ (fct m k).i2 ∧
      (fct m k).i0 ≠ (fct m k).i2) ∧
  (∀ k < m.f.length, ∀ v < m.p.length,
      (k ∈ (vtx m v).facets ↔ v ∈ corners (fct m k)))

/-- The incidence invariant exactly as the spec states it: a facet appears
in a vertex's incidence list iff that vertex's index appears among the
facet's three corner indices. -/
def IncidenceIff (m : Mesh α) : Prop :=
  ∀ k < m.f.length, ∀ v < m.p.length,
    (k ∈ (vtx m v).facets ↔ v ∈ corners (fct m k))

/-- The cached-normal invariant: every live facet's cached normal equals
the normal freshly computed from its current three corner coordinates. -/
def NormalInv (m : Mesh α) : Prop :=
  ∀ k < m.f.length, (fct m k).n = (pnt_normal (fct m k).v0 (fct m k).v1 (fct m k).v2).1

/-- `remove_first` removes exactly the first occurrence: it behaves as
`List.erase`, failing when the element is absent. -/
theorem remove_first_eq (k : ℕ) : ∀ l : List ℕ,
    remove_first k l = if k ∈ l then some (l.erase k) else none := by
  intro l
  induction l with
  | nil => simp [remove_first]
  | cons x xs ih =>
    by_cases hx : x = k
    · subst hx; simp [remove_first, List.erase_cons]
    · rw [remove_first, if_neg hx, ih]
      by_cases hk : k ∈ xs
      · simp [hk, List.erase_cons, hx, List.mem_cons, Ne.symm hx]
      · simp [hk, List.mem_cons, hx, Ne.symm hx]

theorem getD_set_self {β : Type} [Inhabited β] :
    ∀ (l : List β) (i : ℕ) (b : β), i < l.length →
      (l.set i b).getD i default = b := by
  intro l
  induction l with
  | nil => intro i b h; simp at h
  | cons x xs ih =>
    intro i b h
    cases i with
    | zero => simp
    | succ j => simpa using ih j b (by simpa using h)

theorem getD_set_ne {β : Type} [Inhabited β] :
    ∀ (l : List β) (i j : ℕ) (b : β), i ≠ j →
      (l.set i b).getD j default = l.getD j default := by
  intro l
  induction l with
  | nil => intro i j b _; simp
  | cons x xs ih =>
    intro i j b hij
    cases i with
    | zero =>
      cases j with
      | zero => exact absurd rfl hij
      | succ j2 => simp
    | succ i2 =>
      cases j with
      | zero => simp
      | succ j2 => simpa using ih i2 j2 b (by omega)

theorem getD_set_oob {β : Type} [Inhabited β] :
    ∀ (l : List β) (i : ℕ) (b : β), l.length ≤ i → l.set i b = l := by
  intro l
  induction l with
  | nil => intro i b _; simp
  | cons x xs ih =>
    intro i b h
    cases i with
    | zero => simp at h
    | succ j => simpa using ih j b (by simpa using h)

theorem setVtx_f (m : Mesh α) (v : ℕ) (vx : Vertex α) : (setVtx m v vx).f = m.f := rfl

theorem setVtx_p_length (m : Mesh α) (v : ℕ) (vx : Vertex α) :
    (setVtx m v vx).p.length = m.p.length := by
  simp [setVtx]

theorem fct_setVtx (m : Mesh α) (v : ℕ) (vx : Vertex α) (k : ℕ) :
    fct (setVtx m v vx) k = fct m k := rfl

theorem vtx_setVtx_self (m : Mesh α) (v : ℕ) (vx : Vertex α) (h : v < m.p.length) :
    vtx (setVtx m v vx) v = vx := by
  show (m.p.set v vx).getD v default = vx
  exact getD_set_self _ _ _ h

theorem vtx_setVtx_ne (m : Mesh α) (v w : ℕ) (vx : Vertex α) (h : v ≠ w) :
    vtx (setVtx m v vx) w = vtx m w := by
  show (m.p.set v vx).getD w default = m.p.getD w default
  exact getD_set_ne _ _ _ _ h

theorem setVtx_oob (m : Mesh α) (v : ℕ) (vx : Vertex α) (h : m.p.length ≤ v) :
    setVtx m v vx = m := by
  cases m; simp [setVtx, getD_set_oob _ _ _ h]

theorem detach_f (m : Mesh α) (k v : ℕ) : (detach m k v).f = m.f := rfl

theorem detach_p_length (m : Mesh α) (k v : ℕ) :
    (detach m k v).p.length = m.p.length := by
  simp [detach, setVtx_p_length]

theorem fct_detach (m : Mesh α) (k v j : ℕ) : fct (detach m k v) j = fct m j := rfl

theorem vtx_detach_ne (m : Mesh α) (k v w : ℕ) (h : v ≠ w) :
    vtx (detach m k v) w = vtx m w := vtx_setVtx_ne _ _ _ _ h

theorem rfv_snd (k : ℕ) (vx : Vertex α) :
    (remove_facet_from_vertex k vx).2 = { vx with facets := vx.facets.erase k } := by
  rw [remove_facet_from_vertex, remove_first_eq]
  by_cases h : k ∈ vx.facets
  · simp [h]
  · simp [h, List.erase_of_not_mem h]

theorem vtx_detach_self (m : Mesh α) (k v : ℕ) (h : v < m.p.length) :
    vtx (detach m k v) v = { vtx m v with facets := ((vtx m v).facets).erase k } := by
  rw [detach, rfv_snd, vtx_setVtx_self _ _ _ h]

theorem attach_f (m : Mesh α) (v k : ℕ) : (attach m v k).f = m.f := rfl

theorem attach_p_length (m : Mesh α) (v k : ℕ) :
    (attach m v k).p.length = m.p.length := by
  simp [attach, setVtx_p_length]

theorem fct_attach (m : Mesh α) (v k j : ℕ) : fct (attach m v k) j = fct m j := rfl

theorem vtx_attach_ne (m : Mesh α) (v k w : ℕ) (h : v ≠ w) :
    vtx (attach m v k) w = vtx m w := vtx_setVtx_ne _ _ _ _ h

theorem vtx_attach_self (m : Mesh α) (v k : ℕ) (h : v < m.p.length) :
    vtx (attach m v k) v = { vtx m v with facets := (vtx m v).facets ++ [k] } := by
  rw [attach, vtx_setVtx_self _ _ _ h]

theorem int_trunc_neg_iff (x : α) : int_trunc x < 0 ↔ x ≤ -1 := by
  unfold int_trunc
  by_cases h : 0 ≤ x
  · rw [if_pos h]
    constructor
    · intro hlt
      have hf : (0 : ℤ) ≤ ⌊x⌋ := Int.floor_nonneg.mpr h
      omega
    · intro hle
      linarith
  · rw [if_neg h]
    push_neg at h
    constructor
    · intro hlt
      have h2 : ⌈x⌉ ≤ -1 := by omega
      have h3 : x ≤ ((-1 : ℤ) : α) := Int.ceil_le.mp h2
      simpa using h3
    · intro hle
      have h3 : ⌈x⌉ ≤ (-1 : ℤ) := Int.ceil_le.mpr (by exact_mod_cast hle)
      omega

/-- Claim C1 (corrected): `same_normal n1 n2` tests the sign of
`dot_product`, which is declared `int` in C and so truncates the exact dot
product toward zero; hence `same_normal` is true iff the exact dot product
is greater than `-1` — not iff it is at least `0` as claimed: any
fractional dot product in `(-1, 0)` truncates to `0` and passes the sign
test — and the cross product is the zero vector. The claim's three
concrete examples do hold, their dot products being integers. -/
theorem spec_C1 :
    (∀ n1 n2 : Pnt α,
      same_normal n1 n2 = true ↔
        (-1 < n1.x * n2.x + n1.y * n2.y + n1.z * n2.z ∧
          cross_product n1 n2 = pntZero)) ∧
    same_normal (⟨1, 0, 0⟩ : Pnt ℤ) ⟨1, 0, 0⟩ = true ∧
    same_normal (⟨1, 0, 0⟩ : Pnt ℤ) ⟨-1, 0, 0⟩ = false ∧
    same_normal (⟨1, 0, 0⟩ : Pnt ℤ) ⟨2, 0, 0⟩ = true := by
  refine ⟨?_, by decide, by decide, by decide⟩
  intro n1 n2
  have hkey : dot_product n1 n2 < 0 ↔
      n1.x * n2.x + n1.y * n2.y + n1.z * n2.z ≤ -1 :=
    int_trunc_neg_iff (n1.x * n2.x + n1.y * n2.y + n1.z * n2.z)
  unfold same_normal
  split
  · next h =>
    rw [hkey] at h
    constructor
    · intro hf
      exact Bool.noConfusion hf
    · rintro ⟨hc, _⟩
      exact absurd h (not_le.mpr hc)
  · next h =>
    rw [hkey] at h
    push_neg at h
    split
    · next h2 =>
      constructor
      · intro hf
        exact Bool.noConfusion hf
      · rintro ⟨_, hcr⟩
        exact absurd hcr h2
    · next h2 =>
      constructor
      · intro _
        exact ⟨h, not_not.mp h2⟩
      · intro _
        rfl

/-- Counterexample to the claim's stated iff, over exact arithmetic at ℚ:
the dot product of `(1,0,0)` and `(-1/2,0,0)` is `-1/2 < 0` and the two
vectors are parallel, so the claimed equivalence demands `false`; but the C
`dot_product` returns `int`, `-1/2` truncates to `0`, and `same_normal`
returns `true`. -/
theorem spec_C1_cex :
    same_normal (⟨1, 0, 0⟩ : Pnt ℚ) ⟨-(1/2), 0, 0⟩ = true ∧
    (⟨1, 0, 0⟩ : Pnt ℚ).x * (⟨-(1/2), 0, 0⟩ : Pnt ℚ).x +
      (⟨1, 0, 0⟩ : Pnt ℚ).y * (⟨-(1/2), 0, 0⟩ : Pnt ℚ).y +
      (⟨1, 0, 0⟩ : Pnt ℚ).z * (⟨-(1/2), 0, 0⟩ : Pnt ℚ).z < 0 ∧
    dot_product (⟨1, 0, 0⟩ : Pnt ℚ) ⟨-(1/2), 0, 0⟩ = 0 ∧
    cross_product (⟨1, 0, 0⟩ : Pnt ℚ) ⟨-(1/2), 0, 0⟩ = pntZero := by
  have hceil : ⌈(-(1/2) : ℚ)⌉ = 0 := by
    rw [Int.ceil_eq_iff]
    constructor <;> norm_num
  have hd : dot_product (⟨1, 0, 0⟩ : Pnt ℚ) ⟨-(1/2), 0, 0⟩ = 0 := by
    show int_trunc ((1 : ℚ) * (-(1/2)) + 0 * 0 + 0 * 0) = 0
    unfold int_trunc
    rw [if_neg (by norm_num),
      show ((1 : ℚ) * (-(1/2)) + 0 * 0 + 0 * 0) = -(1/2) by norm_num]
    exact hceil
  have hcr : cross_product (⟨1, 0, 0⟩ : Pnt ℚ) ⟨-(1/2), 0, 0⟩ = pntZero := by
    show (⟨0 * 0 - 0 * 0, 0 * (-(1/2)) - 1 * 0, 1 * 0 - 0 * (-(1/2))⟩ : Pnt ℚ) =
      ⟨0, 0, 0⟩
    simp only [Pnt.mk.injEq]
    norm_num
  have hsn : same_normal (⟨1, 0, 0⟩ : Pnt ℚ) ⟨-(1/2), 0, 0⟩ = true := by
    unfold same_normal
    rw [hd, if_neg (by norm_num), if_neg (not_not_intro hcr)]
  refine ⟨hsn, ?_, hd, hcr⟩
  show (1 : ℚ) * (-(1/2)) + 0 * 0 + 0 * 0 < 0
  norm_num

theorem pnt_normal_fst (v0 v1 v2 : Pnt α) :
    (pnt_normal v0 v1 v2).1 = cross_product (psub v1 v0) (psub v2 v0) := rfl

theorem pnt_normal_deg (v0 v1 v2 : Pnt α) :
    (pnt_normal v0 v1 v2).2 = true ↔
      cross_product (psub v1 v0) (psub v2 v0) = pntZero := by
  show (_ && _ && _) = true ↔ _
  rw [Bool.and_assoc, Bool.and_eq_true, Bool.and_eq_true]
  simp only [decide_eq_true_eq]
  constructor
  · rintro ⟨hx, hy, hz⟩
    exact Pnt.ext hx hy hz
  · intro h
    refine ⟨congrArg Pnt.x h, congrArg Pnt.y h, congrArg Pnt.z h⟩

/-- The corners `v0, v1, v2` are not collinear: the two edge vectors of the
triangle admit no non-trivial vanishing linear combination. -/
def nonCollinear (v0 v1 v2 : Pnt α) : Prop :=
  ∀ a b : α,
    padd (pscale a (psub v1 v0)) (pscale b (psub v2 v0)) = pntZero → a = 0 ∧ b = 0

/-- A vanishing cross product means the two vectors are linearly
dependent. -/
theorem cross_zero_dep (e1 e2 : Pnt α) (h : cross_product e1 e2 = pntZero) :
    ∃ a b : α, ¬(a = 0 ∧ b = 0) ∧ padd (pscale a e1) (pscale b e2) = pntZero := by
  have hx := congrArg Pnt.x h
  have hy := congrArg Pnt.y h
  have hz := congrArg Pnt.z h
  simp only [cross_product, pntZero] at hx hy hz
  by_cases h1 : e1.x = 0
  · by_cases h2 : e1.y = 0
    · by_cases h3 : e1.z = 0
      · refine ⟨1, 0, by simp, ?_⟩
        refine Pnt.ext ?_ ?_ ?_ <;> simp [padd, pscale, h1, h2, h3, pntZero]
      · refine ⟨e2.z, -e1.z, fun hc => h3 (by simpa using hc.2), ?_⟩
        refine Pnt.ext ?_ ?_ ?_ <;> simp only [padd, pscale, pntZero]
        · linear_combination -hy
        · linear_combination hx
        · ring
    · refine ⟨e2.y, -e1.y, fun hc => h2 (by simpa using hc.2), ?_⟩
      refine Pnt.ext ?_ ?_ ?_ <;> simp only [padd, pscale, pntZero]
      · linear_combination hz
      · ring
      · linear_combination -hx
  · refine ⟨e2.x, -e1.x, fun hc => h1 (by simpa using hc.2), ?_⟩
    refine Pnt.ext ?_ ?_ ?_ <;> simp only [padd, pscale, pntZero]
    · ring
    · linear_combination -hz
    · linear_combination hy

/-- Coincident corners give a vanishing cross product of the edge
vectors. -/
theorem coincident_cross_zero (v0 v1 v2 : Pnt α)
    (h : v0 = v1 ∨ v0 = v2 ∨ v1 = v2) :
    cross_product (psub v1 v0) (psub v2 v0) = pntZero := by
  rcases h with h | h | h <;> subst h <;>
    refine Pnt.ext ?_ ?_ ?_ <;> simp only [cross_product, psub, pntZero] <;> ring

/-- Claim C5: `mesh_add_facet` returns `true` exactly when the cross
product `(v1-v0) × (v2-v0)` of the triangle's edge vectors is the zero
vector; the live facet count increases by one exactly when it returns
`false`; a triangle with two coincident corners is always reported
degenerate and never increases the live facet count; and three
non-collinear points are never reported degenerate. -/
theorem spec_C5 :
    (∀ (m : Mesh α) (a0 a1 a2 b0 b1 b2 c0 c1 c2 : α),
      (mesh_add_facet m a0 a1 a2 b0 b1 b2 c0 c1 c2).1 = true ↔
        cross_product (psub ⟨b0, b1, b2⟩ ⟨a0, a1, a2⟩)
            (psub ⟨c0, c1, c2⟩ ⟨a0, a1, a2⟩) = pntZero) ∧
    (∀ (m : Mesh α) (a0 a1 a2 b0 b1 b2 c0 c1 c2 : α),
      (mesh_add_facet m a0 a1 a2 b0 b1 b2 c0 c1 c2).2.f.length = m.f.length + 1 ↔
        (mesh_add_facet m a0 a1 a2 b0 b1 b2 c0 c1 c2).1 = false) ∧
    (∀ (m : Mesh α) (a0 a1 a2 b0 b1 b2 c0 c1 c2 : α),
      ((⟨a0, a1, a2⟩ : Pnt α) = ⟨b0, b1, b2⟩ ∨ (⟨a0, a1, a2⟩ : Pnt α) = ⟨c0, c1, c2⟩ ∨
          (⟨b0, b1, b2⟩ : Pnt α) = ⟨c0, c1, c2⟩) →
        (mesh_add_facet m a0 a1 a2 b0 b1 b2 c0 c1 c2).1 = true ∧
        (mesh_add_facet m a0 a1 a2 b0 b1 b2 c0 c1 c2).2.f.length = m.f.length) ∧
    (∀ (m : Mesh α) (a0 a1 a2 b0 b1 b2 c0 c1 c2 : α),
      nonCollinear (⟨a0, a1, a2⟩ : Pnt α) ⟨b0, b1, b2⟩ ⟨c0, c1, c2⟩ →
        (mesh_add_facet m a0 a1 a2 b0 b1 b2 c0 c1 c2).1 = false) := by
  have key : ∀ (m : Mesh α) (a0 a1 a2 b0 b1 b2 c0 c1 c2 : α),
      (mesh_add_facet m a0 a1 a2 b0 b1 b2 c0 c1 c2).1 = true ↔
        cross_product (psub ⟨b0, b1, b2⟩ ⟨a0, a1, a2⟩)
            (psub ⟨c0, c1, c2⟩ ⟨a0, a1, a2⟩) = pntZero := by
    intro m a0 a1 a2 b0 b1 b2 c0 c1 c2
    rw [← pnt_normal_deg]
    unfold mesh_add_facet
    by_cases h : (pnt_normal (⟨a0, a1, a2⟩ : Pnt α) ⟨b0, b1, b2⟩ ⟨c0, c1, c2⟩).2 = true
    · simp [h]
    · simp [h]
  have len : ∀ (m : Mesh α) (a0 a1 a2 b0 b1 b2 c0 c1 c2 : α),
      (mesh_add_facet m a0 a1 a2 b0 b1 b2 c0 c1 c2).2.f.length = m.f.length + 1 ↔
        (mesh_add_facet m a0 a1 a2 b0 b1 b2 c0 c1 c2).1 = false := by
    intro m a0 a1 a2 b0 b1 b2 c0 c1 c2
    unfold mesh_add_facet
    by_cases h : (pnt_normal (⟨a0, a1, a2⟩ : Pnt α) ⟨b0, b1, b2⟩ ⟨c0, c1, c2⟩).2 = true
    · simp [h]
    · simp [h]
  refine ⟨key, len, ?_, ?_⟩
  · intro m a0 a1 a2 b0 b1 b2 c0 c1 c2 h
    have hdeg : (mesh_add_facet m a0 a1 a2 b0 b1 b2 c0 c1 c2).1 = true :=
      (key m a0 a1 a2 b0 b1 b2 c0 c1 c2).mpr (coincident_cross_zero _ _ _ h)
    refine ⟨hdeg, ?_⟩
    unfold mesh_add_facet at hdeg ⊢
    by_cases h2 : (pnt_normal (⟨a0, a1, a2⟩ : Pnt α) ⟨b0, b1, b2⟩ ⟨c0, c1, c2⟩).2 = true
    · simp [h2]
    · simp [h2] at hdeg
  · intro m a0 a1 a2 b0 b1 b2 c0 c1 c2 h
    by_contra hne
    have hdeg : (mesh_add_facet m a0 a1 a2 b0 b1 b2 c0 c1 c2).1 = true := by
      revert hne; cases (mesh_add_facet m a0 a1 a2 b0 b1 b2 c0 c1 c2).1 <;> simp
    obtain ⟨a, b, hab, hcomb⟩ :=
      cross_zero_dep _ _ ((key m a0 a1 a2 b0 b1 b2 c0 c1 c2).mp hdeg)
    exact hab (h a b hcomb)

/-- Claim C10: a vertex whose incidence list holds fewer than two facets —
including a logically dead vertex with an empty list — always satisfies
`is_candidate`, and hence passes the candidate filter used by
`find_adjacent` when the remaining checks pass. -/
theorem spec_C10 :
    (∀ (m : Mesh α) (v : ℕ),
      (vtx m v).facets.length < 2 → is_candidate m v = true) ∧
    (∀ (m : Mesh α) (ivtx fl civtx : ℕ),
      (vtx m civtx).facets.length < 2 →
      civtx ≠ ivtx →
      ¬(FACETPNT_CNT < (fl + (vtx m civtx).facets.length + (2 ^ 32 - 2)) % 2 ^ 32) →
      check_move_ok m civtx ivtx = true →
      corner_ok m ivtx fl civtx = true) := by
  have cand : ∀ (m : Mesh α) (v : ℕ),
      (vtx m v).facets.length < 2 → is_candidate m v = true := by
    intro m v h
    unfold is_candidate
    rcases hl : (vtx m v).facets with _ | ⟨x, _ | ⟨y, rest⟩⟩
    · rfl
    · rfl
    · rw [hl] at h; simp at h; omega
  refine ⟨cand, ?_⟩
  intro m ivtx fl civtx hlen hne hval hmove
  unfold corner_ok
  rw [if_neg hne, cand m civtx hlen]
  simp only [Bool.not_true, Bool.false_eq_true, if_false]
  rw [if_neg hval]
  exact hmove

/-- An empty mesh over ℤ, for concrete evaluation. -/
def meshEmpty : Mesh ℤ := ⟨[], []⟩

/-- A mesh over ℤ whose single vertex has an empty incidence list. -/
def meshDead : Mesh ℤ := ⟨[], [⟨⟨0, 0, 0⟩, []⟩]⟩

theorem nc_example : nonCollinear (⟨0, 0, 0⟩ : Pnt ℤ) ⟨1, 0, 0⟩ ⟨0, 1, 0⟩ := by
  intro a b h
  have hx := congrArg Pnt.x h
  have hy := congrArg Pnt.y h
  simp only [padd, pscale, psub, pntZero] at hx hy
  constructor
  · simpa using hx
  · simpa using hy

theorem spec_C5_witness :
    ((mesh_add_facet meshEmpty 0 0 0 1 0 0 0 1 0).1 = true ↔
      cross_product (psub (⟨1, 0, 0⟩ : Pnt ℤ) ⟨0, 0, 0⟩) (psub (⟨0, 1, 0⟩ : Pnt ℤ) ⟨0, 0, 0⟩) = pntZero) ∧
    ((mesh_add_facet meshEmpty 0 0 0 1 0 0 0 1 0).2.f.length = meshEmpty.f.length + 1 ↔
      (mesh_add_facet meshEmpty 0 0 0 1 0 0 0 1 0).1 = false) ∧
    (((⟨0, 0, 0⟩ : Pnt ℤ) = ⟨0, 0, 0⟩ ∨ (⟨0, 0, 0⟩ : Pnt ℤ) = ⟨1, 0, 0⟩ ∨
        (⟨0, 0, 0⟩ : Pnt ℤ) = ⟨1, 0, 0⟩) ∧
      (mesh_add_facet meshEmpty 0 0 0 0 0 0 1 0 0).1 = true ∧
      (mesh_add_facet meshEmpty 0 0 0 0 0 0 1 0 0).2.f.length = meshEmpty.f.length) ∧
    (nonCollinear (⟨0, 0, 0⟩ : Pnt ℤ) ⟨1, 0, 0⟩ ⟨0, 1, 0⟩ ∧
      (mesh_add_facet meshEmpty 0 0 0 1 0 0 0 1 0).1 = false) := by
  refine ⟨(spec_C5 (α := ℤ)).1 meshEmpty 0 0 0 1 0 0 0 1 0,
    (spec_C5 (α := ℤ)).2.1 meshEmpty 0 0 0 1 0 0 0 1 0,
    ⟨by decide, (spec_C5 (α := ℤ)).2.2.1 meshEmpty 0 0 0 0 0 0 1 0 0 (by decide)⟩,
    nc_example, (spec_C5 (α := ℤ)).2.2.2 meshEmpty 0 0 0 1 0 0 0 1 0 nc_example⟩

theorem spec_C10_witness :
    ((vtx meshDead 0).facets.length < 2 ∧ is_candidate meshDead 0 = true) ∧
    ((vtx meshDead 0).facets.length < 2 ∧ (0 : ℕ) ≠ 1 ∧
      ¬(FACETPNT_CNT < ((2 : ℕ) + (vtx meshDead 0).facets.length + (2 ^ 32 - 2)) % 2 ^ 32) ∧
      check_move_ok meshDead 0 1 = true ∧
      corner_ok meshDead 1 2 0 = true) := by
  refine ⟨⟨by decide, (spec_C10 (α := ℤ)).1 meshDead 0 (by decide)⟩,
    by decide, by decide, by decide, by decide,
    (spec_C10 (α := ℤ)).2 meshDead 1 2 0 (by decide) (by decide) (by decide) (by decide)⟩

theorem nepnt_iff (p q : Pnt α) : nepnt p q = true ↔ p ≠ q := by
  unfold nepnt
  rw [Bool.or_eq_true, Bool.or_eq_true]
  simp only [decide_eq_true_eq]
  constructor
  · rintro ((h | h) | h) he <;> exact h (by rw [he])
  · intro h
    by_contra hc
    push_neg at hc
    exact h (Pnt.ext hc.1.1 hc.1.2 hc.2)

/-- The spec's description of a facet that forces `check_move_ok` to
reject the move (stated from the spec's words, for comparison with the
code's `move_sim_ok`): the simulated triangle either is degenerate with
three pairwise-distinct corners, or is non-degenerate and fails
`same_normal` against the facet's cached normal. -/
def badMove (m : Mesh α) (frm dst k : ℕ) : Bool :=
  match sim_corners m frm dst k with
  | none => false
  | some (w0, w1, w2) =>
    ((pnt_normal w0 w1 w2).2 && (nepnt w0 w1 && nepnt w1 w2 && nepnt w2 w0)) ||
    (!(pnt_normal w0 w1 w2).2 && !(same_normal (pnt_normal w0 w1 w2).1 (fct m k).n))

theorem sim_corners_some_of_mem (m : Mesh α) (frm dst k : ℕ)
    (h : frm ∈ corners (fct m k)) :
    ∃ t, sim_corners m frm dst k = some t := by
  simp only [corners, List.mem_cons, List.mem_singleton, List.not_mem_nil, or_false] at h
  rcases h with h | h | h
  · exact ⟨((vtx m dst).pnt, (fct m k).v1, (fct m k).v2), by simp [sim_corners, h.symm]⟩
  · by_cases h0 : (fct m k).i0 = frm
    · exact ⟨((vtx m dst).pnt, (fct m k).v1, (fct m k).v2), by simp [sim_corners, h0]⟩
    · exact ⟨((fct m k).v0, (vtx m dst).pnt, (fct m k).v2),
        by simp [sim_corners, h0, h.symm]⟩
  · by_cases h0 : (fct m k).i0 = frm
    · exact ⟨((vtx m dst).pnt, (fct m k).v1, (fct m k).v2), by simp [sim_corners, h0]⟩
    · by_cases h1 : (fct m k).i1 = frm
      · exact ⟨((fct m k).v0, (vtx m dst).pnt, (fct m k).v2),
          by simp [sim_corners, h0, h1]⟩
      · exact ⟨((fct m k).v0, (fct m k).v1, (vtx m dst).pnt),
          by simp [sim_corners, h0, h1, h.symm]⟩

theorem move_sim_ok_eq_not_bad (m : Mesh α) (frm dst k : ℕ)
    (t : Pnt α × Pnt α × Pnt α) (h : sim_corners m frm dst k = some t) :
    move_sim_ok m frm dst k = !(badMove m frm dst k) := by
  obtain ⟨w0, w1, w2⟩ := t
  unfold move_sim_ok badMove
  rw [h]
  cases hb : (pnt_normal w0 w1 w2).2 <;> simp [hb]

/-- Claim C6: when `frm`'s index occurs among the corner indices of every
facet incident on `frm`, `check_move_ok` returns `false` iff some incident
facet, with its `frm` corner relocated to `dst`'s coordinate, either
becomes a degenerate triangle with three pairwise-distinct corners or
stays non-degenerate but fails `same_normal` against its cached normal;
it returns `true` iff no incident facet does. -/
theorem spec_C6 (m : Mesh α) (frm dst : ℕ)
    (hall : ∀ k ∈ (vtx m frm).facets, frm ∈ corners (fct m k)) :
    (check_move_ok m frm dst = false ↔
      ∃ k ∈ (vtx m frm).facets, badMove m frm dst k = true) ∧
    (check_move_ok m frm dst = true ↔
      ∀ k ∈ (vtx m frm).facets, badMove m frm dst k = false) ∧
    (∀ k ∈ (vtx m frm).facets, ∀ w0 w1 w2 : Pnt α,
      sim_corners m frm dst k = some (w0, w1, w2) →
      (badMove m frm dst k = true ↔
        (((pnt_normal w0 w1 w2).2 = true ∧ w0 ≠ w1 ∧ w1 ≠ w2 ∧ w2 ≠ w0) ∨
         ((pnt_normal w0 w1 w2).2 = false ∧
           same_normal (pnt_normal w0 w1 w2).1 (fct m k).n = false)))) := by
  have htrue : check_move_ok m frm dst = true ↔
      ∀ k ∈ (vtx m frm).facets, badMove m frm dst k = false := by
    unfold check_move_ok
    rw [List.all_eq_true]
    constructor
    · intro h k hk
      obtain ⟨t, ht⟩ := sim_corners_some_of_mem m frm dst k (hall k hk)
      have := h k hk
      rw [move_sim_ok_eq_not_bad m frm dst k t ht] at this
      simpa using this
    · intro h k hk
      obtain ⟨t, ht⟩ := sim_corners_some_of_mem m frm dst k (hall k hk)
      rw [move_sim_ok_eq_not_bad m frm dst k t ht, h k hk]
      rfl
  refine ⟨?_, htrue, ?_⟩
  · rw [← Bool.not_eq_true, htrue]
    push_neg
    constructor
    · rintro ⟨k, hk, hbad⟩
      exact ⟨k, hk, by simpa using hbad⟩
    · rintro ⟨k, hk, hbad⟩
      exact ⟨k, hk, by simpa using hbad⟩
  · intro k hk w0 w1 w2 hsim
    unfold badMove
    rw [hsim]
    cases hb : (pnt_normal w0 w1 w2).2 <;>
      simp [hb, nepnt_iff, and_assoc]

/-- A single facet triangle mesh over ℤ, for concrete evaluation. -/
def meshTri : Mesh ℤ :=
  ⟨[⟨⟨0, 0, 0⟩, ⟨1, 0, 0⟩, ⟨0, 1, 0⟩, 0, 1, 2, ⟨0, 0, 1⟩⟩],
   [⟨⟨0, 0, 0⟩, [0]⟩, ⟨⟨1, 0, 0⟩, [0]⟩, ⟨⟨0, 1, 0⟩, [0]⟩]⟩

theorem spec_C6_witness :
    (1 ∈ corners (fct meshTri 0)) ∧
    check_move_ok meshTri 1 0 = true ∧
    badMove meshTri 1 0 0 = false := by
  refine ⟨by decide, ?_, by decide⟩
  exact ((spec_C6 meshTri 1 0 (by decide)).2.1).mpr (by decide)

theorem retarget_none_iff (f : Facet α) (frm dst : ℕ) (tp : Pnt α) :
    retarget f frm dst tp = none ↔ frm ∉ corners f := by
  unfold retarget corners
  by_cases h0 : f.i0 = frm
  · simp [h0]
  · by_cases h1 : f.i1 = frm
    · simp [h0, h1]
    · by_cases h2 : f.i2 = frm
      · simp [h0, h1, h2]
      · simp [h0, h1, h2, Ne.symm h0, Ne.symm h1, Ne.symm h2]

theorem vtx_mk_f (m : Mesh α) (fl : List (Facet α)) (w : ℕ) :
    vtx { m with f := fl } w = vtx m w := rfl

theorem move_unfold_fail (m : Mesh α) (k frm dst : ℕ) (f1 : Facet α)
    (hre : retarget (fct m k) frm dst (vtx m dst).pnt = some f1)
    (hrm : remove_first k (vtx (attach { m with f := m.f.set k f1 } dst k) frm).facets =
      none) :
    move_facet_vertex m k frm dst = (false, attach { m with f := m.f.set k f1 } dst k) := by
  unfold move_facet_vertex
  rw [hre]
  dsimp only
  rw [hrm]

theorem move_unfold_ok (m : Mesh α) (k frm dst : ℕ) (f1 : Facet α) (l : List ℕ)
    (hre : retarget (fct m k) frm dst (vtx m dst).pnt = some f1)
    (hrm : remove_first k (vtx (attach { m with f := m.f.set k f1 } dst k) frm).facets =
      some l) :
    move_facet_vertex m k frm dst =
      (!(pnt_normal f1.v0 f1.v1 f1.v2).2,
       { setVtx (attach { m with f := m.f.set k f1 } dst k) frm
           { vtx (attach { m with f := m.f.set k f1 } dst k) frm with facets := l } with
         f := (m.f.set k f1).set k { f1 with n := (pnt_normal f1.v0 f1.v1 f1.v2).1 } }) := by
  unfold move_facet_vertex
  rw [hre]
  dsimp only
  rw [hrm]
  rfl

/-- Claim C7: `move_facet_vertex` returns `false` exactly when `frm` is
not among the facet's corner indices, or the facet is not on `frm`'s
incidence list (so removal fails), or the retargeted triangle is
degenerate; on success the facet has its `frm` corner retargeted to `dst`
with `dst`'s coordinate copied in and its normal recomputed, the facet is
appended to `dst`'s incidence list and removed from `frm`'s, and all
other vertices are untouched. -/
theorem spec_C7 (m : Mesh α) (k frm dst : ℕ) (hfd : frm ≠ dst)
    (hf : frm < m.p.length) (hd : dst < m.p.length) :
    (retarget (fct m k) frm dst (vtx m dst).pnt = none ↔ frm ∉ corners (fct m k)) ∧
    ((move_facet_vertex m k frm dst).1 = false ↔
      (frm ∉ corners (fct m k) ∨ k ∉ (vtx m frm).facets ∨
        (∃ f1, retarget (fct m k) frm dst (vtx m dst).pnt = some f1 ∧
          (pnt_normal f1.v0 f1.v1 f1.v2).2 = true))) ∧
    (∀ f1, retarget (fct m k) frm dst (vtx m dst).pnt = some f1 →
      (move_facet_vertex m k frm dst).1 = true →
      ((move_facet_vertex m k frm dst).2.f =
          m.f.set k { f1 with n := (pnt_normal f1.v0 f1.v1 f1.v2).1 } ∧
        vtx (move_facet_vertex m k frm dst).2 dst =
          { vtx m dst with facets := (vtx m dst).facets ++ [k] } ∧
        (vtx (move_facet_vertex m k frm dst).2 frm).facets =
          ((vtx m frm).facets).erase k ∧
        (∀ w, w ≠ dst → w ≠ frm → vtx (move_facet_vertex m k frm dst).2 w = vtx m w))) := by
  refine ⟨retarget_none_iff _ _ _ _, ?_, ?_⟩
  · rcases hre : retarget (fct m k) frm dst (vtx m dst).pnt with _ | f1
    · have hnc := (retarget_none_iff (fct m k) frm dst (vtx m dst).pnt).mp hre
      unfold move_facet_vertex
      rw [hre]
      simp [hnc]
    · have hc : frm ∈ corners (fct m k) := by
        by_contra hnc
        rw [← retarget_none_iff (fct m k) frm dst (vtx m dst).pnt, hre] at hnc
        exact Option.noConfusion hnc
      have hvfrm : (vtx (attach { m with f := m.f.set k f1 } dst k) frm).facets =
          (vtx m frm).facets := by
        rw [vtx_attach_ne _ _ _ _ (Ne.symm hfd), vtx_mk_f]
      by_cases hk : k ∈ (vtx m frm).facets
      · have hrm : remove_first k
            (vtx (attach { m with f := m.f.set k f1 } dst k) frm).facets =
            some (((vtx m frm).facets).erase k) := by
          rw [hvfrm, remove_first_eq, if_pos hk]
        rw [move_unfold_ok m k frm dst f1 _ hre hrm]
        simp only [Bool.not_eq_false', Bool.not_eq_true]
        constructor
        · intro hdeg
          exact Or.inr (Or.inr ⟨f1, rfl, hdeg⟩)
        · rintro (h | h | ⟨f2, hf2, hdeg⟩)
          · exact absurd hc h
          · exact absurd hk h
          · cases hf2
            exact hdeg
      · have hrm : remove_first k
            (vtx (attach { m with f := m.f.set k f1 } dst k) frm).facets = none := by
          rw [hvfrm, remove_first_eq, if_neg hk]
        rw [move_unfold_fail m k frm dst f1 hre hrm]
        simp only [true_iff]
        exact Or.inr (Or.inl hk)
  · intro f1 hre hsucc
    have hvfrm : (vtx (attach { m with f := m.f.set k f1 } dst k) frm).facets =
        (vtx m frm).facets := by
      rw [vtx_attach_ne _ _ _ _ (Ne.symm hfd), vtx_mk_f]
    by_cases hk : k ∈ (vtx m frm).facets
    · have hrm : remove_first k
          (vtx (attach { m with f := m.f.set k f1 } dst k) frm).facets =
          some (((vtx m frm).facets).erase k) := by
        rw [hvfrm, remove_first_eq, if_pos hk]
      rw [move_unfold_ok m k frm dst f1 _ hre hrm] at hsucc ⊢
      refine ⟨?_, ?_, ?_, ?_⟩
      · show (m.f.set k f1).set k _ = _
        rw [List.set_set]
      · rw [vtx_mk_f, vtx_setVtx_ne _ _ _ _ hfd,
          vtx_attach_self { m with f := m.f.set k f1 } dst k hd, vtx_mk_f]
      · rw [vtx_mk_f,
          vtx_setVtx_self _ _ _ (by rw [attach_p_length]; exact hf)]
      · intro w hwd hwf
        rw [vtx_mk_f, vtx_setVtx_ne _ _ _ _ (Ne.symm hwf),
          vtx_attach_ne _ _ _ _ (Ne.symm hwd), vtx_mk_f]
    · have hrm : remove_first k
          (vtx (attach { m with f := m.f.set k f1 } dst k) frm).facets = none := by
        rw [hvfrm, remove_first_eq, if_neg hk]
      rw [move_unfold_fail m k frm dst f1 hre hrm] at hsucc
      exact absurd hsucc (by simp)

/-- A one-facet mesh over ℤ with a spare fourth vertex, for concrete
evaluation of a successful vertex move. -/
def meshQuad : Mesh ℤ :=
  ⟨[⟨⟨0, 0, 0⟩, ⟨1, 0, 0⟩, ⟨0, 1, 0⟩, 0, 1, 2, ⟨0, 0, 1⟩⟩],
   [⟨⟨0, 0, 0⟩, [0]⟩, ⟨⟨1, 0, 0⟩, [0]⟩, ⟨⟨0, 1, 0⟩, [0]⟩, ⟨⟨2, 0, 0⟩, []⟩]⟩

theorem spec_C7_witness :
    ((1 : ℕ) ≠ 3 ∧ 1 < meshQuad.p.length ∧ 3 < meshQuad.p.length) ∧
    retarget (fct meshQuad 0) 1 3 (vtx meshQuad 3).pnt =
      some ⟨⟨0, 0, 0⟩, ⟨2, 0, 0⟩, ⟨0, 1, 0⟩, 0, 3, 2, ⟨0, 0, 1⟩⟩ ∧
    (move_facet_vertex meshQuad 0 1 3).1 = true ∧
    vtx (move_facet_vertex meshQuad 0 1 3).2 3 =
      { vtx meshQuad 3 with facets := (vtx meshQuad 3).facets ++ [0] } := by
  refine ⟨⟨by decide, by decide, by decide⟩, by decide, by decide, ?_⟩
  exact ((spec_C7 meshQuad 0 1 3 (by decide) (by decide) (by decide)).2.2
    ⟨⟨0, 0, 0⟩, ⟨2, 0, 0⟩, ⟨0, 1, 0⟩, 0, 3, 2, ⟨0, 0, 1⟩⟩ (by decide) (by decide)).2.1

theorem getD_append_left {β : Type} [Inhabited β] :
    ∀ (l l2 : List β) (j : ℕ), j < l.length →
      (l ++ l2).getD j default = l.getD j default := by
  intro l
  induction l with
  | nil => intro l2 j h; simp at h
  | cons x xs ih =>
    intro l2 j h
    cases j with
    | zero => simp
    | succ j2 => simpa using ih l2 j2 (by simpa using h)

theorem getD_append_right {β : Type} [Inhabited β] :
    ∀ (l : List β) (b : β), (l ++ [b]).getD l.length default = b := by
  intro l b
  induction l with
  | nil => simp
  | cons x xs ih => simpa using ih

theorem getD_dropLast {β : Type} [Inhabited β] :
    ∀ (l : List β) (j : ℕ), j < l.length - 1 →
      (l.dropLast).getD j default = l.getD j default := by
  intro l
  induction l with
  | nil => intro j h; simp at h
  | cons x xs ih =>
    intro j h
    cases xs with
    | nil => simp at h
    | cons y ys =>
      cases j with
      | zero => simp [List.dropLast]
      | succ j2 =>
        have := ih j2 (by simp at h ⊢; omega)
        simpa [List.dropLast] using this

theorem remove_facet_f_last (m : Mesh α) (k : ℕ) (h : k = m.f.length - 1) :
    (remove_facet m k).f = m.f.dropLast := by
  unfold remove_facet
  dsimp only
  rw [if_pos (show k = _ by rw [detach_f, detach_f, detach_f]; exact h)]
  rfl

theorem remove_facet_f_swap (m : Mesh α) (k : ℕ) (h : ¬(k = m.f.length - 1)) :
    (remove_facet m k).f = (m.f.set k (fct m (m.f.length - 1))).dropLast := by
  unfold remove_facet
  dsimp only
  rw [if_neg (show ¬(k = _) by rw [detach_f, detach_f, detach_f]; exact h)]
  rfl

theorem vtx_detach3 (m : Mesh α) (k a b c w : ℕ)
    (hab : a ≠ b) (hbc : b ≠ c) (hac : a ≠ c) (hw : w < m.p.length) :
    vtx (detach (detach (detach m k a) k b) k c) w =
      (if w = a ∨ w = b ∨ w = c
       then { vtx m w with facets := ((vtx m w).facets).erase k }
       else vtx m w) := by
  by_cases hwc : w = c
  · subst hwc
    rw [vtx_detach_self _ _ _ (by rw [detach_p_length, detach_p_length]; exact hw),
      vtx_detach_ne _ _ _ _ hbc, vtx_detach_ne _ _ _ _ hac]
    simp
  · rw [vtx_detach_ne _ _ _ _ (Ne.symm hwc)]
    by_cases hwb : w = b
    · subst hwb
      rw [vtx_detach_self _ _ _ (by rw [detach_p_length]; exact hw),
        vtx_detach_ne _ _ _ _ hab]
      simp
    · rw [vtx_detach_ne _ _ _ _ (Ne.symm hwb)]
      by_cases hwa : w = a
      · subst hwa
        rw [vtx_detach_self _ _ _ hw]
        simp
      · rw [vtx_detach_ne _ _ _ _ (Ne.symm hwa)]
        simp [hwa, hwb, hwc]

theorem vtx_attach3 (m : Mesh α) (k a b c w : ℕ)
    (hab : a ≠ b) (hbc : b ≠ c) (hac : a ≠ c) (hw : w < m.p.length) :
    vtx (attach (attach (attach m a k) b k) c k) w =
      (if w = a ∨ w = b ∨ w = c
       then { vtx m w with facets := (vtx m w).facets ++ [k] }
       else vtx m w) := by
  by_cases hwc : w = c
  · subst hwc
    rw [vtx_attach_self _ _ _ (by rw [attach_p_length, attach_p_length]; exact hw),
      vtx_attach_ne _ _ _ _ hbc, vtx_attach_ne _ _ _ _ hac]
    simp
  · rw [vtx_attach_ne _ _ _ _ (Ne.symm hwc)]
    by_cases hwb : w = b
    · subst hwb
      rw [vtx_attach_self _ _ _ (by rw [attach_p_length]; exact hw),
        vtx_attach_ne _ _ _ _ hab]
      simp
    · rw [vtx_attach_ne _ _ _ _ (Ne.symm hwb)]
      by_cases hwa : w = a
      · subst hwa
        rw [vtx_attach_self _ _ _ hw]
        simp
      · rw [vtx_attach_ne _ _ _ _ (Ne.symm hwa)]
        simp [hwa, hwb, hwc]

theorem p_length_mk_f (m : Mesh α) (fl : List (Facet α)) :
    ({ m with f := fl } : Mesh α).p.length = m.p.length := rfl

theorem remove_unfold_last (m : Mesh α) (k : ℕ) (h : k = m.f.length - 1) :
    remove_facet m k =
      { detach (detach (detach m k (fct m k).i0) k (fct m k).i1) k (fct m k).i2 with
          f := m.f.dropLast } := by
  unfold remove_facet
  dsimp only
  rw [if_pos (show k = _ by rw [detach_f, detach_f, detach_f]; exact h)]
  rfl

theorem remove_unfold_swap (m : Mesh α) (k : ℕ) (h : ¬(k = m.f.length - 1)) :
    remove_facet m k =
      attach (attach (attach
        (detach (detach (detach
          { detach (detach (detach m k (fct m k).i0) k (fct m k).i1) k (fct m k).i2 with
              f := (m.f.set k (fct m (m.f.length - 1))).dropLast }
          (m.f.length - 1) (fct m (m.f.length - 1)).i0)
          (m.f.length - 1) (fct m (m.f.length - 1)).i1)
          (m.f.length - 1) (fct m (m.f.length - 1)).i2)
        (fct m (m.f.length - 1)).i0 k)
        (fct m (m.f.length - 1)).i1 k)
        (fct m (m.f.length - 1)).i2 k := by
  unfold remove_facet
  dsimp only
  rw [if_neg (show ¬(k = _) by rw [detach_f, detach_f, detach_f]; exact h)]
  rfl

theorem remove_facet_vtx (m : Mesh α) (k w : ℕ)
    (hd1 : (fct m k).i0 ≠ (fct m k).i1 ∧ (fct m k).i1 ≠ (fct m k).i2 ∧
      (fct m k).i0 ≠ (fct m k).i2)
    (hd2 : (fct m (m.f.length - 1)).i0 ≠ (fct m (m.f.length - 1)).i1 ∧
      (fct m (m.f.length - 1)).i1 ≠ (fct m (m.f.length - 1)).i2 ∧
      (fct m (m.f.length - 1)).i0 ≠ (fct m (m.f.length - 1)).i2)
    (hw : w < m.p.length) :
    vtx (remove_facet m k) w =
      { vtx m w with facets :=
          (let L1 := if w ∈ corners (fct m k) then ((vtx m w).facets).erase k
                     else (vtx m w).facets
           if k = m.f.length - 1 ∨ w ∉ corners (fct m (m.f.length - 1)) then L1
           else (L1.erase (m.f.length - 1)) ++ [k]) } := by
  by_cases hlast : k = m.f.length - 1
  · rw [remove_unfold_last m k hlast, vtx_mk_f,
      vtx_detach3 m k _ _ _ w hd1.1 hd1.2.1 hd1.2.2 hw]
    simp only [corners, List.mem_cons, List.not_mem_nil, or_false, hlast, true_or, if_pos]
    split_ifs <;> rfl
  · rw [remove_unfold_swap m k hlast,
      vtx_attach3 _ k _ _ _ w hd2.1 hd2.2.1 hd2.2.2
        (by rw [detach_p_length, detach_p_length, detach_p_length, p_length_mk_f,
          detach_p_length, detach_p_length, detach_p_length]; exact hw),
      vtx_detach3 _ (m.f.length - 1) _ _ _ w hd2.1 hd2.2.1 hd2.2.2
        (by rw [p_length_mk_f, detach_p_length, detach_p_length, detach_p_length]; exact hw),
      vtx_mk_f, vtx_detach3 m k _ _ _ w hd1.1 hd1.2.1 hd1.2.2 hw]
    simp only [corners, List.mem_cons, List.not_mem_nil, or_false, hlast, false_or]
    by_cases h1 : w = (fct m k).i0 ∨ w = (fct m k).i1 ∨ w = (fct m k).i2 <;>
      by_cases h2 : w = (fct m (m.f.length - 1)).i0 ∨ w = (fct m (m.f.length - 1)).i1 ∨
          w = (fct m (m.f.length - 1)).i2 <;>
        simp [h1, h2]

theorem move_unfold_none (m : Mesh α) (k frm dst : ℕ)
    (hre : retarget (fct m k) frm dst (vtx m dst).pnt = none) :
    move_facet_vertex m k frm dst = (false, m) := by
  unfold move_facet_vertex
  rw [hre]

theorem add_facet_deg (m : Mesh α) (a0 a1 a2 b0 b1 b2 c0 c1 c2 : α)
    (h : (pnt_normal (⟨a0, a1, a2⟩ : Pnt α) ⟨b0, b1, b2⟩ ⟨c0, c1, c2⟩).2 = true) :
    mesh_add_facet m a0 a1 a2 b0 b1 b2 c0 c1 c2 = (true, m) := by
  unfold mesh_add_facet
  dsimp only
  rw [if_pos h]

theorem add_facet_ok (m : Mesh α) (a0 a1 a2 b0 b1 b2 c0 c1 c2 : α)
    (h : (pnt_normal (⟨a0, a1, a2⟩ : Pnt α) ⟨b0, b1, b2⟩ ⟨c0, c1, c2⟩).2 = false) :
    mesh_add_facet m a0 a1 a2 b0 b1 b2 c0 c1 c2 =
      (false, { m with f := m.f ++
        [⟨⟨a0, a1, a2⟩, ⟨b0, b1, b2⟩, ⟨c0, c1, c2⟩, 0, 0, 0,
          (pnt_normal (⟨a0, a1, a2⟩ : Pnt α) ⟨b0, b1, b2⟩ ⟨c0, c1, c2⟩).1⟩] }) := by
  unfold mesh_add_facet
  dsimp only
  rw [if_neg (by simp [h])]

theorem normal_inv_append (m : Mesh α) (F : Facet α)
    (hinv : NormalInv m) (hF : F.n = (pnt_normal F.v0 F.v1 F.v2).1) :
    NormalInv { m with f := m.f ++ [F] } := by
  intro j hj
  simp only [List.length_append, List.length_cons, List.length_nil] at hj
  by_cases hjl : j < m.f.length
  · have he : fct { m with f := m.f ++ [F] } j = fct m j := getD_append_left _ _ _ hjl
    rw [he]
    exact hinv j hjl
  · have hje : j = m.f.length := by omega
    subst hje
    have he : fct { m with f := m.f ++ [F] } m.f.length = F := getD_append_right _ _
    rw [he]
    exact hF

/-- Claim C8: the cached-normal invariant — every live facet's cached
normal equals the normal freshly computed from its current three corner
coordinates — is preserved by `mesh_add_facet`, by `remove_facet` on a
live facet, and by a successful `move_facet_vertex`; and under it a
facet's cached normal is the zero vector exactly when the facet is
degenerate. -/
theorem spec_C8 :
    (∀ (m : Mesh α) (a0 a1 a2 b0 b1 b2 c0 c1 c2 : α), NormalInv m →
      NormalInv (mesh_add_facet m a0 a1 a2 b0 b1 b2 c0 c1 c2).2) ∧
    (∀ (m : Mesh α) (k : ℕ), NormalInv m → k < m.f.length →
      NormalInv (remove_facet m k)) ∧
    (∀ (m : Mesh α) (k frm dst : ℕ), NormalInv m →
      (move_facet_vertex m k frm dst).1 = true →
      NormalInv (move_facet_vertex m k frm dst).2) ∧
    (∀ (m : Mesh α), NormalInv m → ∀ k, k < m.f.length →
      ((fct m k).n = pntZero ↔
        (pnt_normal (fct m k).v0 (fct m k).v1 (fct m k).v2).2 = true)) := by
  refine ⟨?_, ?_, ?_, ?_⟩
  · intro m a0 a1 a2 b0 b1 b2 c0 c1 c2 hinv
    by_cases hdeg : (pnt_normal (⟨a0, a1, a2⟩ : Pnt α) ⟨b0, b1, b2⟩ ⟨c0, c1, c2⟩).2 = true
    · rw [add_facet_deg m a0 a1 a2 b0 b1 b2 c0 c1 c2 hdeg]
      exact hinv
    · rw [add_facet_ok m a0 a1 a2 b0 b1 b2 c0 c1 c2 (by simpa using hdeg)]
      exact normal_inv_append m _ hinv rfl
  · intro m k hinv hk
    by_cases hlast : k = m.f.length - 1
    · intro j hj
      have hlen : (remove_facet m k).f.length = m.f.length - 1 := by
        rw [remove_facet_f_last m k hlast]
        exact List.length_dropLast _
      rw [hlen] at hj
      have he : fct (remove_facet m k) j = fct m j := by
        show (remove_facet m k).f.getD j default = _
        rw [remove_facet_f_last m k hlast]
        exact getD_dropLast _ _ hj
      rw [he]
      exact hinv j (by omega)
    · intro j hj
      have hlen : (remove_facet m k).f.length = m.f.length - 1 := by
        rw [remove_facet_f_swap m k hlast]
        rw [List.length_dropLast, List.length_set]
      rw [hlen] at hj
      by_cases hjk : j = k
      · subst hjk
        have he : fct (remove_facet m j) j = fct m (m.f.length - 1) := by
          show (remove_facet m j).f.getD j default = _
          rw [remove_facet_f_swap m j hlast]
          rw [getD_dropLast _ _ (by rw [List.length_set]; exact hj)]
          exact getD_set_self _ _ _ hk
        rw [he]
        exact hinv (m.f.length - 1) (by omega)
      · have he : fct (remove_facet m k) j = fct m j := by
          show (remove_facet m k).f.getD j default = _
          rw [remove_facet_f_swap m k hlast]
          rw [getD_dropLast _ _ (by rw [List.length_set]; exact hj)]
          exact getD_set_ne _ _ _ _ (fun hx => hjk hx.symm)
        rw [he]
        exact hinv j (by omega)
  · intro m k frm dst hinv hsucc
    rcases hre : retarget (fct m k) frm dst (vtx m dst).pnt with _ | f1
    · rw [move_unfold_none m k frm dst hre] at hsucc
      exact absurd hsucc (by simp)
    · rcases hrm : remove_first k
          (vtx (attach { m with f := m.f.set k f1 } dst k) frm).facets with _ | l
      · rw [move_unfold_fail m k frm dst f1 hre hrm] at hsucc
        exact absurd hsucc (by simp)
      · have hf2 : (move_facet_vertex m k frm dst).2.f =
            m.f.set k { f1 with n := (pnt_normal f1.v0 f1.v1 f1.v2).1 } := by
          rw [move_unfold_ok m k frm dst f1 l hre hrm]
          show (m.f.set k f1).set k _ = _
          rw [List.set_set]
        intro j hj
        rw [hf2, List.length_set] at hj
        by_cases hjk : j = k
        · subst hjk
          have he : fct (move_facet_vertex m j frm dst).2 j =
              { f1 with n := (pnt_normal f1.v0 f1.v1 f1.v2).1 } := by
            show (move_facet_vertex m j frm dst).2.f.getD j default = _
            rw [hf2]
            exact getD_set_self _ _ _ hj
          rw [he]
        · have he : fct (move_facet_vertex m k frm dst).2 j = fct m j := by
            show (move_facet_vertex m k frm dst).2.f.getD j default = _
            rw [hf2]
            exact getD_set_ne _ _ _ _ (fun hx => hjk hx.symm)
          rw [he]
          exact hinv j hj
  · intro m hinv k hk
    rw [hinv k hk, pnt_normal_deg, pnt_normal_fst]

attribute [reducible] NormalInv MeshInv IncidenceIff

theorem spec_C8_witness :
    NormalInv meshTri ∧
    NormalInv (mesh_add_facet meshTri 2 0 0 3 0 0 2 1 0).2 ∧
    (0 < meshTri.f.length ∧ NormalInv (remove_facet meshTri 0)) ∧
    ((move_facet_vertex meshQuad 0 1 3).1 = true ∧ NormalInv meshQuad ∧
      NormalInv (move_facet_vertex meshQuad 0 1 3).2) ∧
    (0 < meshTri.f.length ∧
      ((fct meshTri 0).n = pntZero ↔
        (pnt_normal (fct meshTri 0).v0 (fct meshTri 0).v1 (fct meshTri 0).v2).2 = true)) := by
  refine ⟨by decide, (spec_C8 (α := ℤ)).1 meshTri 2 0 0 3 0 0 2 1 0 (by decide),
    ⟨by decide, (spec_C8 (α := ℤ)).2.1 meshTri 0 (by decide) (by decide)⟩,
    ⟨by decide, by decide, (spec_C8 (α := ℤ)).2.2.1 meshQuad 0 1 3 (by decide) (by decide)⟩,
    ⟨by decide, (spec_C8 (α := ℤ)).2.2.2 meshTri (by decide) 0 (by decide)⟩⟩

theorem tv_list_set : ∀ (p : List (Vertex α)) (v : ℕ) (vx : Vertex α), v < p.length →
    ((p.set v vx).map (fun w => w.facets.length)).sum + (p.getD v default).facets.length =
      (p.map (fun w => w.facets.length)).sum + vx.facets.length := by
  intro p
  induction p with
  | nil => intro v vx h; simp at h
  | cons x xs ih =>
    intro v vx h
    cases v with
    | zero => simp [Nat.add_comm, Nat.add_left_comm]
    | succ v2 =>
      have ih2 := ih v2 vx (by simpa using h)
      show (((x :: xs.set v2 vx)).map _).sum + _ = _
      simp only [List.map_cons, List.sum_cons, List.getD_cons_succ]
      omega

theorem tv_setVtx (m : Mesh α) (v : ℕ) (vx : Vertex α) (hv : v < m.p.length) :
    totalValence (setVtx m v vx) + (vtx m v).facets.length =
      totalValence m + vx.facets.length :=
  tv_list_set m.p v vx hv

theorem tv_detach_mem (m : Mesh α) (k v : ℕ) (hv : v < m.p.length)
    (hm : k ∈ (vtx m v).facets) :
    totalValence (detach m k v) + 1 = totalValence m := by
  have h := tv_setVtx m v (remove_facet_from_vertex k (vtx m v)).2 hv
  rw [rfv_snd] at h
  have hlen : (((vtx m v).facets).erase k).length + 1 = (vtx m v).facets.length :=
    List.length_erase_add_one hm
  show totalValence (setVtx m v (remove_facet_from_vertex k (vtx m v)).2) + 1 = _
  rw [rfv_snd]
  dsimp only at h ⊢
  omega

theorem tv_attach (m : Mesh α) (v k : ℕ) (hv : v < m.p.length) :
    totalValence (attach m v k) = totalValence m + 1 := by
  have h := tv_setVtx m v { vtx m v with facets := (vtx m v).facets ++ [k] } hv
  have h2 : ((vtx m v).facets ++ [k]).length = (vtx m v).facets.length + 1 := by simp
  unfold attach
  dsimp only at h ⊢
  omega

theorem nodup_append_singleton {l : List ℕ} {a : ℕ} (h : l.Nodup) (ha : a ∉ l) :
    (l ++ [a]).Nodup := by
  rw [List.nodup_append]
  refine ⟨h, List.nodup_singleton a, ?_⟩
  intro b hb hb2
  simp only [List.mem_singleton] at hb2
  subst hb2
  exact ha hb

theorem remove_facet_p_length (m : Mesh α) (k : ℕ) :
    (remove_facet m k).p.length = m.p.length := by
  by_cases hlast : k = m.f.length - 1
  · rw [remove_unfold_last m k hlast, p_length_mk_f, detach_p_length, detach_p_length,
      detach_p_length]
  · rw [remove_unfold_swap m k hlast, attach_p_length, attach_p_length, attach_p_length,
      detach_p_length, detach_p_length, detach_p_length, p_length_mk_f,
      detach_p_length, detach_p_length, detach_p_length]

theorem remove_facet_f_length (m : Mesh α) (k : ℕ) :
    (remove_facet m k).f.length = m.f.length - 1 := by
  by_cases hlast : k = m.f.length - 1
  · rw [remove_facet_f_last m k hlast, List.length_dropLast]
  · rw [remove_facet_f_swap m k hlast, List.length_dropLast, List.length_set]

theorem remove_facet_fct (m : Mesh α) (k j : ℕ) (hk : k < m.f.length)
    (hj : j < m.f.length - 1) :
    fct (remove_facet m k) j = if j = k then fct m (m.f.length - 1) else fct m j := by
  by_cases hlast : k = m.f.length - 1
  · have hjk : ¬(j = k) := by omega
    rw [if_neg hjk]
    show (remove_facet m k).f.getD j default = _
    rw [remove_facet_f_last m k hlast]
    exact getD_dropLast _ _ hj
  · show (remove_facet m k).f.getD j default = _
    rw [remove_facet_f_swap m k hlast,
      getD_dropLast _ _ (by rw [List.length_set]; exact hj)]
    by_cases hjk : j = k
    · subst hjk
      rw [if_pos rfl]
      exact getD_set_self _ _ _ hk
    · rw [if_neg hjk]
      exact getD_set_ne _ _ _ _ (fun hx => hjk hx.symm)

theorem remove_facet_MeshInv (m : Mesh α) (k : ℕ) (hk : k < m.f.length)
    (hinv : MeshInv m) : MeshInv (remove_facet m k) := by
  obtain ⟨hent, hnd, hrange, hdist, hinc⟩ := hinv
  have hk1 : m.f.length - 1 < m.f.length := by omega
  have hd1 := hdist k hk
  have hd2 := hdist (m.f.length - 1) hk1
  have hvtx := fun (w : ℕ) (hw : w < m.p.length) => remove_facet_vtx m k w hd1 hd2 hw
  have hL1 : ∀ w, w < m.p.length → ∀ j,
      (j ∈ (if w ∈ corners (fct m k) then ((vtx m w).facets).erase k
            else (vtx m w).facets) ↔
        (j ≠ k ∧ j ∈ (vtx m w).facets)) := by
    intro w hw j
    by_cases hc : w ∈ corners (fct m k)
    · rw [if_pos hc]
      exact (hnd w hw).mem_erase_iff
    · rw [if_neg hc]
      constructor
      · intro hj
        refine ⟨?_, hj⟩
        rintro rfl
        exact hc ((hinc j hk w hw).mp hj)
      · exact And.right
  have hnd1 : ∀ w, w < m.p.length →
      (if w ∈ corners (fct m k) then ((vtx m w).facets).erase k
       else (vtx m w).facets).Nodup := by
    intro w hw
    by_cases hc : w ∈ corners (fct m k)
    · rw [if_pos hc]
      exact (hnd w hw).erase k
    · rw [if_neg hc]
      exact hnd w hw
  have hmem : ∀ w, w < m.p.length → ∀ j,
      (j ∈ (vtx (remove_facet m k) w).facets ↔
        ((j = k ∧ ¬(k = m.f.length - 1) ∧ w ∈ corners (fct m (m.f.length - 1))) ∨
         (j ≠ k ∧ j ≠ m.f.length - 1 ∧ j ∈ (vtx m w).facets))) := by
    intro w hw j
    rw [hvtx w hw]
    dsimp only
    by_cases hcond : k = m.f.length - 1 ∨ w ∉ corners (fct m (m.f.length - 1))
    · rw [if_pos hcond]
      rw [hL1 w hw j]
      constructor
      · rintro ⟨hjk, hjL⟩
        refine Or.inr ⟨hjk, ?_, hjL⟩
        rcases hcond with hcond | hcond
        · rw [← hcond]
          exact hjk
        · rintro rfl
          exact hcond ((hinc (m.f.length - 1) hk1 w hw).mp hjL)
      · rintro (⟨rfl, hkl, hC2⟩ | ⟨hjk, _, hjL⟩)
        · rcases hcond with hcond | hcond
          · exact absurd hcond hkl
          · exact absurd hC2 hcond
        · exact ⟨hjk, hjL⟩
    · rw [if_neg hcond]
      push_neg at hcond
      rw [List.mem_append, List.mem_singleton, (hnd1 w hw).mem_erase_iff, hL1 w hw j]
      constructor
      · rintro (⟨hjlast, hjk, hjL⟩ | rfl)
        · exact Or.inr ⟨hjk, hjlast, hjL⟩
        · exact Or.inl ⟨rfl, hcond.1, hcond.2⟩
      · rintro (⟨rfl, _, _⟩ | ⟨hjk, hjlast, hjL⟩)
        · exact Or.inr rfl
        · exact Or.inl ⟨hjlast, hjk, hjL⟩
  refine ⟨?_, ?_, ?_, ?_, ?_⟩
  · intro v hv fi hfi
    rw [remove_facet_p_length] at hv
    rw [remove_facet_f_length]
    rcases (hmem v hv fi).mp hfi with ⟨rfl, hkl, _⟩ | ⟨_, hfl, hfL⟩
    · omega
    · have := hent v hv fi hfL
      omega
  · intro v hv
    rw [remove_facet_p_length] at hv
    rw [hvtx v hv]
    dsimp only
    by_cases hcond : k = m.f.length - 1 ∨ v ∉ corners (fct m (m.f.length - 1))
    · rw [if_pos hcond]
      exact hnd1 v hv
    · rw [if_neg hcond]
      refine nodup_append_singleton ((hnd1 v hv).erase _) ?_
      intro hke
      have := ((hnd1 v hv).mem_erase_iff.mp hke).2
      exact ((hL1 v hv k).mp this).1 rfl
  · intro j hj
    rw [remove_facet_f_length] at hj
    rw [remove_facet_p_length, remove_facet_fct m k j hk hj]
    split_ifs
    · exact hrange _ hk1
    · exact hrange j (by omega)
  · intro j hj
    rw [remove_facet_f_length] at hj
    rw [remove_facet_fct m k j hk hj]
    split_ifs
    · exact hd2
    · exact hdist j (by omega)
  · intro j hj v hv
    rw [remove_facet_f_length] at hj
    rw [remove_facet_p_length] at hv
    rw [hmem v hv j, remove_facet_fct m k j hk hj]
    by_cases hjk : j = k
    · subst hjk
      rw [if_pos rfl]
      constructor
      · rintro (⟨_, _, hC2⟩ | ⟨hne, _, _⟩)
        · exact hC2
        · exact absurd rfl hne
      · intro hC2
        exact Or.inl ⟨rfl, by omega, hC2⟩
    · rw [if_neg hjk]
      constructor
      · rintro (⟨he, _, _⟩ | ⟨_, _, hjL⟩)
        · exact absurd he hjk
        · exact (hinc j (by omega) v hv).mp hjL
      · intro hcor
        exact Or.inr ⟨hjk, by omega, (hinc j (by omega) v hv).mpr hcor⟩

theorem tv_mk_f (m : Mesh α) (fl : List (Facet α)) :
    totalValence { m with f := fl } = totalValence m := rfl

theorem remove_facet_vtx_len (m : Mesh α) (k : ℕ) (hk : k < m.f.length)
    (hinv : MeshInv m) (w : ℕ) (hw : w < m.p.length) :
    (vtx (remove_facet m k) w).facets.length +
      (if w ∈ corners (fct m k) then 1 else 0) = (vtx m w).facets.length := by
  obtain ⟨hent, hnd, hrange, hdist, hinc⟩ := hinv
  have hk1 : m.f.length - 1 < m.f.length := by omega
  rw [remove_facet_vtx m k w (hdist k hk) (hdist _ hk1) hw]
  dsimp only
  have hL1len : (if w ∈ corners (fct m k) then ((vtx m w).facets).erase k
      else (vtx m w).facets).length + (if w ∈ corners (fct m k) then 1 else 0) =
      (vtx m w).facets.length := by
    by_cases hc : w ∈ corners (fct m k)
    · rw [if_pos hc, if_pos hc]
      exact List.length_erase_add_one ((hinc k hk w hw).mpr hc)
    · rw [if_neg hc, if_neg hc]
      omega
  by_cases hcond : k = m.f.length - 1 ∨ w ∉ corners (fct m (m.f.length - 1))
  · rw [if_pos hcond]
    exact hL1len
  · rw [if_neg hcond]
    push_neg at hcond
    have hlmem : (m.f.length - 1) ∈ (if w ∈ corners (fct m k)
        then ((vtx m w).facets).erase k else (vtx m w).facets) := by
      have hin : (m.f.length - 1) ∈ (vtx m w).facets := (hinc _ hk1 w hw).mpr hcond.2
      by_cases hc : w ∈ corners (fct m k)
      · rw [if_pos hc]
        refine (List.mem_erase_of_ne ?_).mpr hin
        have := hcond.1
        omega
      · rw [if_neg hc]
        exact hin
    have h1 := List.length_erase_add_one hlmem
    rw [List.length_append]
    simp only [List.length_cons, List.length_nil]
    omega

theorem remove_facet_tv (m : Mesh α) (k : ℕ) (hk : k < m.f.length)
    (hinv : MeshInv m) : totalValence (remove_facet m k) + 3 = totalValence m := by
  obtain ⟨hent, hnd, hrange, hdist, hinc⟩ := hinv
  have hk1 : m.f.length - 1 < m.f.length := by omega
  obtain ⟨hr0, hr1, hr2⟩ := hrange k hk
  obtain ⟨hd01, hd12, hd02⟩ := hdist k hk
  have hm0 : k ∈ (vtx m (fct m k).i0).facets :=
    (hinc k hk _ hr0).mpr (by simp [corners])
  have t1 : totalValence (detach m k (fct m k).i0) + 1 = totalValence m :=
    tv_detach_mem _ _ _ hr0 hm0
  have t2 : totalValence (detach (detach m k (fct m k).i0) k (fct m k).i1) + 1 =
      totalValence (detach m k (fct m k).i0) :=
    tv_detach_mem _ _ _ (by rw [detach_p_length]; exact hr1)
      (by rw [vtx_detach_ne _ _ _ _ hd01]
          exact (hinc k hk _ hr1).mpr (by simp [corners]))
  have t3 : totalValence (detach (detach (detach m k (fct m k).i0) k (fct m k).i1) k
        (fct m k).i2) + 1 =
      totalValence (detach (detach m k (fct m k).i0) k (fct m k).i1) :=
    tv_detach_mem _ _ _ (by rw [detach_p_length, detach_p_length]; exact hr2)
      (by rw [vtx_detach_ne _ _ _ _ hd12, vtx_detach_ne _ _ _ _ hd02]
          exact (hinc k hk _ hr2).mpr (by simp [corners]))
  by_cases hlast : k = m.f.length - 1
  · rw [remove_unfold_last m k hlast, tv_mk_f]
    omega
  · obtain ⟨hs0, hs1, hs2⟩ := hrange (m.f.length - 1) hk1
    obtain ⟨he01, he12, he02⟩ := hdist (m.f.length - 1) hk1
    have hkne : ¬(m.f.length - 1 = k) := fun hx => hlast hx.symm
    have hmem3 : ∀ w, w < m.p.length → (m.f.length - 1) ∈ (vtx m w).facets →
        (m.f.length - 1) ∈
          (vtx (detach (detach (detach m k (fct m k).i0) k (fct m k).i1) k
            (fct m k).i2) w).facets := by
      intro w hw hin
      rw [vtx_detach3 m k _ _ _ w hd01 hd12 hd02 hw]
      split_ifs with hc
      · exact (List.mem_erase_of_ne hkne).mpr hin
      · exact hin
    have htv : totalValence (remove_facet m k) = totalValence
        (attach (attach (attach
          (detach (detach (detach
            (detach (detach (detach m k (fct m k).i0) k (fct m k).i1) k (fct m k).i2)
            (m.f.length - 1) (fct m (m.f.length - 1)).i0)
            (m.f.length - 1) (fct m (m.f.length - 1)).i1)
            (m.f.length - 1) (fct m (m.f.length - 1)).i2)
          (fct m (m.f.length - 1)).i0 k)
          (fct m (m.f.length - 1)).i1 k)
          (fct m (m.f.length - 1)).i2 k) := by
      rw [remove_unfold_swap m k hlast]
      rfl
    rw [htv]
    have u1 : totalValence (detach
        (detach (detach (detach m k (fct m k).i0) k (fct m k).i1) k (fct m k).i2)
        (m.f.length - 1) (fct m (m.f.length - 1)).i0) + 1 =
        totalValence (detach (detach (detach m k (fct m k).i0) k (fct m k).i1) k
          (fct m k).i2) :=
      tv_detach_mem _ _ _
        (by rw [detach_p_length, detach_p_length, detach_p_length]; exact hs0)
        (hmem3 _ hs0 ((hinc _ hk1 _ hs0).mpr (by simp [corners])))
    have u2 : totalValence (detach (detach
        (detach (detach (detach m k (fct m k).i0) k (fct m k).i1) k (fct m k).i2)
        (m.f.length - 1) (fct m (m.f.length - 1)).i0)
        (m.f.length - 1) (fct m (m.f.length - 1)).i1) + 1 =
        totalValence (detach
          (detach (detach (detach m k (fct m k).i0) k (fct m k).i1) k (fct m k).i2)
          (m.f.length - 1) (fct m (m.f.length - 1)).i0) :=
      tv_detach_mem _ _ _
        (by rw [detach_p_length, detach_p_length, detach_p_length, detach_p_length]
            exact hs1)
        (by rw [vtx_detach_ne _ _ _ _ he01]
            exact hmem3 _ hs1 ((hinc _ hk1 _ hs1).mpr (by simp [corners])))
    have u3 : totalValence (detach (detach (detach
        (detach (detach (detach m k (fct m k).i0) k (fct m k).i1) k (fct m k).i2)
        (m.f.length - 1) (fct m (m.f.length - 1)).i0)
        (m.f.length - 1) (fct m (m.f.length - 1)).i1)
        (m.f.length - 1) (fct m (m.f.length - 1)).i2) + 1 =
        totalValence (detach (detach
          (detach (detach (detach m k (fct m k).i0) k (fct m k).i1) k (fct m k).i2)
          (m.f.length - 1) (fct m (m.f.length - 1)).i0)
          (m.f.length - 1) (fct m (m.f.length - 1)).i1) :=
      tv_detach_mem _ _ _
        (by rw [detach_p_length, detach_p_length, detach_p_length, detach_p_length,
              detach_p_length]
            exact hs2)
        (by rw [vtx_detach_ne _ _ _ _ he12, vtx_detach_ne _ _ _ _ he02]
            exact hmem3 _ hs2 ((hinc _ hk1 _ hs2).mpr (by simp [corners])))
    have a1 := tv_attach (detach (detach (detach
        (detach (detach (detach m k (fct m k).i0) k (fct m k).i1) k (fct m k).i2)
        (m.f.length - 1) (fct m (m.f.length - 1)).i0)
        (m.f.length - 1) (fct m (m.f.length - 1)).i1)
        (m.f.length - 1) (fct m (m.f.length - 1)).i2)
        ((fct m (m.f.length - 1)).i0) k
        (by rw [detach_p_length, detach_p_length, detach_p_length, detach_p_length,
            detach_p_length, detach_p_length]; exact hs0)
    have a2 := tv_attach (attach (detach (detach (detach
        (detach (detach (detach m k (fct m k).i0) k (fct m k).i1) k (fct m k).i2)
        (m.f.length - 1) (fct m (m.f.length - 1)).i0)
        (m.f.length - 1) (fct m (m.f.length - 1)).i1)
        (m.f.length - 1) (fct m (m.f.length - 1)).i2)
        ((fct m (m.f.length - 1)).i0) k)
        ((fct m (m.f.length - 1)).i1) k
        (by rw [attach_p_length, detach_p_length, detach_p_length, detach_p_length,
            detach_p_length, detach_p_length, detach_p_length]; exact hs1)
    have a3 := tv_attach (attach (attach (detach (detach (detach
        (detach (detach (detach m k (fct m k).i0) k (fct m k).i1) k (fct m k).i2)
        (m.f.length - 1) (fct m (m.f.length - 1)).i0)
        (m.f.length - 1) (fct m (m.f.length - 1)).i1)
        (m.f.length - 1) (fct m (m.f.length - 1)).i2)
        ((fct m (m.f.length - 1)).i0) k)
        ((fct m (m.f.length - 1)).i1) k)
        ((fct m (m.f.length - 1)).i2) k
        (by rw [attach_p_length, attach_p_length, detach_p_length, detach_p_length,
            detach_p_length, detach_p_length, detach_p_length, detach_p_length]
            exact hs2)
    omega

theorem corners_set_n (f1 : Facet α) (q : Pnt α) :
    corners { f1 with n := q } = corners f1 := rfl

theorem move_desc (m : Mesh α) (k frm dst : ℕ) (f1 : Facet α)
    (hfd : frm ≠ dst) (hf : frm < m.p.length) (hd : dst < m.p.length)
    (hre : retarget (fct m k) frm dst (vtx m dst).pnt = some f1)
    (hkm : k ∈ (vtx m frm).facets) :
    (move_facet_vertex m k frm dst).2.f =
        m.f.set k { f1 with n := (pnt_normal f1.v0 f1.v1 f1.v2).1 } ∧
    vtx (move_facet_vertex m k frm dst).2 dst =
        { vtx m dst with facets := (vtx m dst).facets ++ [k] } ∧
    vtx (move_facet_vertex m k frm dst).2 frm =
        { vtx m frm with facets := ((vtx m frm).facets).erase k } ∧
    (∀ w, w ≠ dst → w ≠ frm → vtx (move_facet_vertex m k frm dst).2 w = vtx m w) ∧
    (move_facet_vertex m k frm dst).2.p.length = m.p.length ∧
    (move_facet_vertex m k frm dst).1 = !(pnt_normal f1.v0 f1.v1 f1.v2).2 := by
  have hvfull : vtx (attach { m with f := m.f.set k f1 } dst k) frm = vtx m frm := by
    rw [vtx_attach_ne _ _ _ _ (Ne.symm hfd), vtx_mk_f]
  have hrm : remove_first k
      (vtx (attach { m with f := m.f.set k f1 } dst k) frm).facets =
      some (((vtx m frm).facets).erase k) := by
    rw [hvfull, remove_first_eq, if_pos hkm]
  rw [move_unfold_ok m k frm dst f1 _ hre hrm]
  refine ⟨?_, ?_, ?_, ?_, ?_, rfl⟩
  · show (m.f.set k f1).set k _ = _
    rw [List.set_set]
  · rw [vtx_mk_f, vtx_setVtx_ne _ _ _ _ hfd,
      vtx_attach_self { m with f := m.f.set k f1 } dst k hd, vtx_mk_f]
  · rw [vtx_mk_f,
      vtx_setVtx_self _ _ _ (by rw [attach_p_length]; exact hf)]
    rw [hvfull]
  · intro w hwd hwf
    rw [vtx_mk_f, vtx_setVtx_ne _ _ _ _ (Ne.symm hwf),
      vtx_attach_ne _ _ _ _ (Ne.symm hwd), vtx_mk_f]
  · show (setVtx _ frm _).p.length = _
    rw [setVtx_p_length, attach_p_length, p_length_mk_f]

theorem retarget_corners (f f1 : Facet α) (frm dst : ℕ) (tp : Pnt α)
    (hdist : f.i0 ≠ f.i1 ∧ f.i1 ≠ f.i2 ∧ f.i0 ≠ f.i2)
    (hdn : dst ∉ corners f)
    (hre : retarget f frm dst tp = some f1) :
    (∀ w, w ∈ corners f1 ↔ ((w ∈ corners f ∧ w ≠ frm) ∨ w = dst)) ∧
    (f1.i0 ≠ f1.i1 ∧ f1.i1 ≠ f1.i2 ∧ f1.i0 ≠ f1.i2) := by
  simp only [corners, List.mem_cons, List.not_mem_nil, or_false, not_or] at hdn
  unfold retarget at hre
  by_cases h0 : f.i0 = frm
  · rw [if_pos h0] at hre
    cases hre
    subst h0
    refine ⟨?_, ⟨fun he => hdn.2.1 he, hdist.2.1, fun he => hdn.2.2 he⟩⟩
    intro w
    simp only [corners, List.mem_cons, List.not_mem_nil, or_false]
    constructor
    · rintro (rfl | h | h)
      · exact Or.inr rfl
      · exact Or.inl ⟨Or.inr (Or.inl h), fun he => hdist.1 (by rw [← he, h])⟩
      · exact Or.inl ⟨Or.inr (Or.inr h), fun he => hdist.2.2 (by rw [← he, h])⟩
    · rintro (⟨(h | h | h), hne⟩ | rfl)
      · exact absurd h hne
      · exact Or.inr (Or.inl h)
      · exact Or.inr (Or.inr h)
      · exact Or.inl rfl
  · rw [if_neg h0] at hre
    by_cases h1 : f.i1 = frm
    · rw [if_pos h1] at hre
      cases hre
      subst h1
      refine ⟨?_, ⟨fun he => hdn.1 he.symm, fun he => hdn.2.2 he, hdist.2.2⟩⟩
      intro w
      simp only [corners, List.mem_cons, List.not_mem_nil, or_false]
      constructor
      · rintro (h | rfl | h)
        · exact Or.inl ⟨Or.inl h, fun he => h0 (by rw [← he, h])⟩
        · exact Or.inr rfl
        · exact Or.inl ⟨Or.inr (Or.inr h), fun he => hdist.2.1 (by rw [← he, h])⟩
      · rintro (⟨(h | h | h), hne⟩ | rfl)
        · exact Or.inl h
        · exact absurd h hne
        · exact Or.inr (Or.inr h)
        · exact Or.inr (Or.inl rfl)
    · rw [if_neg h1] at hre
      by_cases h2 : f.i2 = frm
      · rw [if_pos h2] at hre
        cases hre
        subst h2
        refine ⟨?_, ⟨hdist.1, fun he => hdn.2.1 he.symm, fun he => hdn.1 he.symm⟩⟩
        intro w
        simp only [corners, List.mem_cons, List.not_mem_nil, or_false]
        constructor
        · rintro (h | h | rfl)
          · exact Or.inl ⟨Or.inl h, fun he => h0 (by rw [← he, h])⟩
          · exact Or.inl ⟨Or.inr (Or.inl h), fun he => h1 (by rw [← he, h])⟩
          · exact Or.inr rfl
        · rintro (⟨(h | h | h), hne⟩ | rfl)
          · exact Or.inl h
          · exact Or.inr (Or.inl h)
          · exact absurd h hne
          · exact Or.inr (Or.inr rfl)
      · rw [if_neg h2] at hre
        exact Option.noConfusion hre

theorem move_MeshInv (m : Mesh α) (k frm dst : ℕ) (hinv : MeshInv m)
    (hk : k < m.f.length) (hf : frm < m.p.length) (hd : dst < m.p.length)
    (hfd : frm ≠ dst) (hfc : frm ∈ corners (fct m k))
    (hdc : dst ∉ corners (fct m k)) :
    MeshInv (move_facet_vertex m k frm dst).2 := by
  obtain ⟨hent, hnd, hrange, hdist, hinc⟩ := hinv
  have hkm : k ∈ (vtx m frm).facets := (hinc k hk frm hf).mpr hfc
  obtain ⟨f1, hre⟩ : ∃ f1, retarget (fct m k) frm dst (vtx m dst).pnt = some f1 := by
    rcases hrr : retarget (fct m k) frm dst (vtx m dst).pnt with _ | f1
    · exact absurd hfc ((retarget_none_iff _ _ _ _).mp hrr)
    · exact ⟨f1, rfl⟩
  obtain ⟨hff, hvd, hvf, hvo, hpl, hflag⟩ := move_desc m k frm dst f1 hfd hf hd hre hkm
  obtain ⟨hciff, hcdist⟩ :=
    retarget_corners (fct m k) f1 frm dst (vtx m dst).pnt (hdist k hk) hdc hre
  have hlen : (move_facet_vertex m k frm dst).2.f.length = m.f.length := by
    rw [hff, List.length_set]
  have hfct : ∀ j, j < m.f.length → fct (move_facet_vertex m k frm dst).2 j =
      (if j = k then { f1 with n := (pnt_normal f1.v0 f1.v1 f1.v2).1 } else fct m j) := by
    intro j hj
    show (move_facet_vertex m k frm dst).2.f.getD j default = _
    rw [hff]
    by_cases hjk : j = k
    · subst hjk
      rw [if_pos rfl]
      exact getD_set_self _ _ _ hj
    · rw [if_neg hjk]
      exact getD_set_ne _ _ _ _ (fun hx => hjk hx.symm)
  have hbnd : ∀ w, w ∈ corners f1 → w < m.p.length := by
    intro w hw
    rcases (hciff w).mp hw with ⟨hwc, _⟩ | rfl
    · obtain ⟨hr0, hr1, hr2⟩ := hrange k hk
      simp only [corners, List.mem_cons, List.not_mem_nil, or_false] at hwc
      rcases hwc with h | h | h
      · rw [h]
        exact hr0
      · rw [h]
        exact hr1
      · rw [h]
        exact hr2
    · exact hd
  refine ⟨?_, ?_, ?_, ?_, ?_⟩
  · intro v hv fi hfi
    rw [hpl] at hv
    rw [hlen]
    by_cases hvd2 : v = dst
    · subst hvd2
      rw [hvd] at hfi
      dsimp only at hfi
      rcases List.mem_append.mp hfi with h | h
      · exact hent v hv fi h
      · rw [List.mem_singleton.mp h]
        exact hk
    · by_cases hvf2 : v = frm
      · subst hvf2
        rw [hvf] at hfi
        dsimp only at hfi
        exact hent v hv fi (List.mem_of_mem_erase hfi)
      · rw [hvo v hvd2 hvf2] at hfi
        exact hent v hv fi hfi
  · intro v hv
    rw [hpl] at hv
    by_cases hvd2 : v = dst
    · subst hvd2
      rw [hvd]
      dsimp only
      exact nodup_append_singleton (hnd v hv)
        (fun hx => hdc ((hinc k hk v hv).mp hx))
    · by_cases hvf2 : v = frm
      · subst hvf2
        rw [hvf]
        dsimp only
        exact (hnd v hv).erase k
      · rw [hvo v hvd2 hvf2]
        exact hnd v hv
  · intro j hj
    rw [hlen] at hj
    rw [hpl, hfct j hj]
    split_ifs with hjk
    · exact ⟨hbnd _ (by simp [corners]), hbnd _ (by simp [corners]),
        hbnd _ (by simp [corners])⟩
    · exact hrange j hj
  · intro j hj
    rw [hlen] at hj
    rw [hfct j hj]
    split_ifs with hjk
    · exact hcdist
    · exact hdist j hj
  · intro j hj v hv
    rw [hlen] at hj
    rw [hpl] at hv
    rw [hfct j hj]
    by_cases hjk : j = k
    · subst hjk
      rw [if_pos rfl, corners_set_n, hciff v]
      by_cases hvd2 : v = dst
      · subst hvd2
        rw [hvd]
        dsimp only
        simp [List.mem_append]
      · by_cases hvf2 : v = frm
        · subst hvf2
          rw [hvf]
          dsimp only
          rw [(hnd v hv).mem_erase_iff]
          simp [hvd2, fun h => hvd2 h]
        · rw [hvo v hvd2 hvf2]
          constructor
          · intro hx
            exact Or.inl ⟨(hinc j hk v hv).mp hx, hvf2⟩
          · rintro (⟨hc, _⟩ | rfl)
            · exact (hinc j hk v hv).mpr hc
            · exact absurd rfl hvd2
    · rw [if_neg hjk]
      by_cases hvd2 : v = dst
      · subst hvd2
        rw [hvd]
        dsimp only
        rw [List.mem_append, List.mem_singleton]
        simp only [hjk, or_false]
        exact hinc j hj v hv
      · by_cases hvf2 : v = frm
        · subst hvf2
          rw [hvf]
          dsimp only
          rw [List.mem_erase_of_ne hjk]
          exact hinc j hj v hv
        · rw [hvo v hvd2 hvf2]
          exact hinc j hj v hv

theorem move_len_tv (m : Mesh α) (k frm dst : ℕ) (f1 : Facet α)
    (hfd : frm ≠ dst) (hf : frm < m.p.length) (hd : dst < m.p.length)
    (hre : retarget (fct m k) frm dst (vtx m dst).pnt = some f1)
    (hkm : k ∈ (vtx m frm).facets) :
    (vtx (move_facet_vertex m k frm dst).2 dst).facets.length =
      (vtx m dst).facets.length + 1 ∧
    (vtx (move_facet_vertex m k frm dst).2 frm).facets.length + 1 =
      (vtx m frm).facets.length ∧
    totalValence (move_facet_vertex m k frm dst).2 = totalValence m := by
  obtain ⟨hff, hvd, hvf, hvo, hpl, hflag⟩ := move_desc m k frm dst f1 hfd hf hd hre hkm
  refine ⟨?_, ?_, ?_⟩
  · rw [hvd]
    dsimp only
    simp
  · rw [hvf]
    dsimp only
    exact List.length_erase_add_one hkm
  · have hvfull : vtx (attach { m with f := m.f.set k f1 } dst k) frm = vtx m frm := by
      rw [vtx_attach_ne _ _ _ _ (Ne.symm hfd), vtx_mk_f]
    have hrm : remove_first k
        (vtx (attach { m with f := m.f.set k f1 } dst k) frm).facets =
        some (((vtx m frm).facets).erase k) := by
      rw [hvfull, remove_first_eq, if_pos hkm]
    rw [move_unfold_ok m k frm dst f1 _ hre hrm, tv_mk_f, hvfull]
    have h2 := tv_setVtx (attach { m with f := m.f.set k f1 } dst k) frm
      { vtx m frm with facets := ((vtx m frm).facets).erase k }
      (by rw [attach_p_length, p_length_mk_f]; exact hf)
    rw [hvfull] at h2
    have h3 : totalValence (attach { m with f := m.f.set k f1 } dst k) =
        totalValence { m with f := m.f.set k f1 } + 1 :=
      tv_attach _ _ _ (show dst < _ from hd)
    rw [tv_mk_f] at h3
    have h4 : ((vtx m frm).facets.erase k).length + 1 = (vtx m frm).facets.length :=
      List.length_erase_add_one hkm
    have h5 : totalValence { m with f := m.f.set k f1 } = totalValence m := tv_mk_f m _
    dsimp only at h2 ⊢
    omega

theorem merge_step_remove_eq (m : Mesh α) (strt tgt k : ℕ) (rest : List ℕ)
    (hlist : (vtx m tgt).facets = k :: rest)
    (hks : k ∈ (vtx m strt).facets) :
    merge_step m strt tgt = remove_facet m k := by
  unfold merge_step
  rw [hlist]
  dsimp only
  rw [if_pos (by simpa [facet_on_vertex] using hks)]

theorem merge_step_move_eq (m : Mesh α) (strt tgt k : ℕ) (rest : List ℕ)
    (hlist : (vtx m tgt).facets = k :: rest)
    (hks : k ∉ (vtx m strt).facets) :
    merge_step m strt tgt = (move_facet_vertex m k tgt strt).2 := by
  unfold merge_step
  rw [hlist]
  dsimp only
  rw [if_neg (by simpa [facet_on_vertex] using hks)]

theorem merge_loop_spec : ∀ (fuel : ℕ) (m : Mesh α) (strt tgt : ℕ),
    MeshInv m → strt < m.p.length → tgt < m.p.length → strt ≠ tgt →
    (vtx m tgt).facets.length ≤ fuel →
    (MeshInv (merge_loop fuel m strt tgt) ∧
     (merge_loop fuel m strt tgt).p.length = m.p.length ∧
     (vtx (merge_loop fuel m strt tgt) tgt).facets = [] ∧
     (∀ w, w < m.p.length → w ≠ strt →
       (vtx (merge_loop fuel m strt tgt) w).facets.length ≤ (vtx m w).facets.length) ∧
     ((vtx (merge_loop fuel m strt tgt) strt).facets.length ≤
       (vtx m strt).facets.length + (vtx m tgt).facets.length) ∧
     totalValence (merge_loop fuel m strt tgt) ≤ totalValence m ∧
     ((∃ g, g ∈ (vtx m strt).facets ∧ g ∈ (vtx m tgt).facets) →
       ((vtx (merge_loop fuel m strt tgt) strt).facets.length + 2 ≤
         (vtx m strt).facets.length + (vtx m tgt).facets.length) ∧
       totalValence (merge_loop fuel m strt tgt) + 3 ≤ totalValence m)) := by
  intro fuel
  induction fuel with
  | zero =>
    intro m strt tgt hinv hs ht hst hfuel
    have hnil : (vtx m tgt).facets = [] := List.length_eq_zero.mp (by omega)
    have hz : merge_loop 0 m strt tgt = m := rfl
    rw [hz]
    refine ⟨hinv, rfl, hnil, fun w _ _ => le_refl _, by omega, le_refl _, ?_⟩
    rintro ⟨g, _, hgt⟩
    rw [hnil] at hgt
    exact absurd hgt (List.not_mem_nil g)
  | succ fuel ih =>
    intro m strt tgt hinv hs ht hst hfuel
    rcases hlist : (vtx m tgt).facets with _ | ⟨k, rest⟩
    · have he : merge_loop (fuel + 1) m strt tgt = m := by
        show (if (vtx m tgt).facets.isEmpty then m
          else merge_loop fuel (merge_step m strt tgt) strt tgt) = m
        rw [hlist]
        rfl
      rw [he]
      refine ⟨hinv, rfl, hlist, fun w _ _ => le_refl _, by omega, le_refl _, ?_⟩
      rintro ⟨g, _, hgt⟩
      exact absurd hgt (List.not_mem_nil g)
    · have he : merge_loop (fuel + 1) m strt tgt =
          merge_loop fuel (merge_step m strt tgt) strt tgt := by
        show (if (vtx m tgt).facets.isEmpty then m
          else merge_loop fuel (merge_step m strt tgt) strt tgt) = _
        rw [hlist]
        rfl
      rw [he]
      obtain ⟨hent, hnd, hrange, hdist, hinc⟩ := hinv
      have hinv2 : MeshInv m := ⟨hent, hnd, hrange, hdist, hinc⟩
      have hktl : k ∈ (vtx m tgt).facets := by
        rw [hlist]
        exact List.mem_cons_self k rest
      have hk : k < m.f.length := hent tgt ht k hktl
      have htc : tgt ∈ corners (fct m k) := (hinc k hk tgt ht).mp hktl
      have hll : (vtx m tgt).facets.length = (k :: rest).length := by rw [hlist]
      have hll2 : (k :: rest).length = rest.length + 1 := rfl
      by_cases hks : k ∈ (vtx m strt).facets
      · -- the facet is shared with strt: remove_facet branch
        have hsc : strt ∈ corners (fct m k) := (hinc k hk strt hs).mp hks
        have heq := merge_step_remove_eq m strt tgt k rest hlist hks
        rw [heq]
        have hminv := remove_facet_MeshInv m k hk hinv2
        have hpl := remove_facet_p_length m k
        have hlent := remove_facet_vtx_len m k hk hinv2 tgt ht
        rw [if_pos htc] at hlent
        have hlens := remove_facet_vtx_len m k hk hinv2 strt hs
        rw [if_pos hsc] at hlens
        have htv := remove_facet_tv m k hk hinv2
        have hlenw : ∀ w, w < m.p.length →
            (vtx (remove_facet m k) w).facets.length ≤ (vtx m w).facets.length := by
          intro w hw
          have := remove_facet_vtx_len m k hk hinv2 w hw
          split_ifs at this <;> omega
        obtain ⟨ih1, ih2, ih3, ih4, ih5, ih6, ih7⟩ :=
          ih (remove_facet m k) strt tgt hminv
            (by rw [hpl]; exact hs) (by rw [hpl]; exact ht) hst (by omega)
        refine ⟨ih1, by rw [ih2, hpl], ih3, ?_, by omega, by omega, ?_⟩
        · intro w hw hwstrt
          exact le_trans (ih4 w (by rw [hpl]; exact hw) hwstrt) (hlenw w hw)
        · intro _
          exact ⟨by omega, by omega⟩
      · -- the facet is only on tgt: move_facet_vertex branch
        have hsc : strt ∉ corners (fct m k) :=
          fun hx => hks ((hinc k hk strt hs).mpr hx)
        have heq := merge_step_move_eq m strt tgt k rest hlist hks
        rw [heq]
        obtain ⟨f1, hre⟩ : ∃ f1, retarget (fct m k) tgt strt (vtx m strt).pnt = some f1 := by
          rcases hrr : retarget (fct m k) tgt strt (vtx m strt).pnt with _ | f1
          · exact absurd htc ((retarget_none_iff _ _ _ _).mp hrr)
          · exact ⟨f1, rfl⟩
        have hminv := move_MeshInv m k tgt strt hinv2 hk ht hs (Ne.symm hst) htc hsc
        obtain ⟨hff, hvd, hvf, hvo, hpl, hflag⟩ :=
          move_desc m k tgt strt f1 (Ne.symm hst) ht hs hre hktl
        obtain ⟨hlens, hlent, htv⟩ :=
          move_len_tv m k tgt strt f1 (Ne.symm hst) ht hs hre hktl
        obtain ⟨ih1, ih2, ih3, ih4, ih5, ih6, ih7⟩ :=
          ih (move_facet_vertex m k tgt strt).2 strt tgt hminv
            (by rw [hpl]; exact hs) (by rw [hpl]; exact ht) hst (by omega)
        refine ⟨ih1, by rw [ih2, hpl], ih3, ?_, by omega, by omega, ?_⟩
        · intro w hw hwstrt
          refine le_trans (ih4 w (by rw [hpl]; exact hw) hwstrt) ?_
          by_cases hwt : w = tgt
          · subst hwt
            omega
          · rw [hvo w hwstrt hwt]
        · rintro ⟨g, hgs, hgt⟩
          rw [← hlist] at hgt
          have hgk : g ≠ k := fun hx => hks (hx ▸ hgs)
          have hgs1 : g ∈ (vtx (move_facet_vertex m k tgt strt).2 strt).facets := by
            rw [hvd]
            dsimp only
            exact List.mem_append.mpr (Or.inl hgs)
          have hgt1 : g ∈ (vtx (move_facet_vertex m k tgt strt).2 tgt).facets := by
            rw [hvf]
            dsimp only
            exact (List.mem_erase_of_ne hgk).mpr hgt
          obtain ⟨h7a, h7b⟩ := ih7 ⟨g, hgs1, hgt1⟩
          exact ⟨by omega, by omega⟩

theorem find_in_corners_spec : ∀ (l : List ℕ) (m : Mesh α) (ivtx fl a : ℕ),
    find_in_corners m ivtx fl l = some a → a ∈ l ∧ corner_ok m ivtx fl a = true := by
  intro l
  induction l with
  | nil => intro m ivtx fl a h; exact Option.noConfusion h
  | cons c cs ih =>
    intro m ivtx fl a h
    unfold find_in_corners at h
    by_cases hc : corner_ok m ivtx fl c = true
    · rw [if_pos hc] at h
      cases h
      exact ⟨List.mem_cons_self c cs, hc⟩
    · rw [if_neg hc] at h
      obtain ⟨hm, hok⟩ := ih m ivtx fl a h
      exact ⟨List.mem_cons_of_mem c hm, hok⟩

theorem find_adjacent_loop_spec : ∀ (ks : List ℕ) (m : Mesh α) (ivtx fl a : ℕ),
    find_adjacent_loop m ivtx fl ks = some a →
    corner_ok m ivtx fl a = true ∧ ∃ k ∈ ks, a ∈ corners (fct m k) := by
  intro ks
  induction ks with
  | nil => intro m ivtx fl a h; exact Option.noConfusion h
  | cons k rest ih =>
    intro m ivtx fl a h
    unfold find_adjacent_loop at h
    rcases hf : find_in_corners m ivtx fl
        [(fct m k).i0, (fct m k).i1, (fct m k).i2] with _ | c
    · rw [hf] at h
      obtain ⟨hok, ⟨k2, hk2, hc2⟩⟩ := ih m ivtx fl a h
      exact ⟨hok, k2, List.mem_cons_of_mem k hk2, hc2⟩
    · rw [hf] at h
      cases h
      obtain ⟨hm, hok⟩ := find_in_corners_spec _ m ivtx fl a hf
      exact ⟨hok, k, List.mem_cons_self k rest, hm⟩

theorem corner_ok_facts (m : Mesh α) (ivtx fl a : ℕ)
    (h : corner_ok m ivtx fl a = true) :
    a ≠ ivtx ∧ is_candidate m a = true ∧
    ¬(FACETPNT_CNT < (fl + (vtx m a).facets.length + (2 ^ 32 - 2)) % 2 ^ 32) ∧
    check_move_ok m a ivtx = true := by
  unfold corner_ok at h
  by_cases h1 : a = ivtx
  · rw [if_pos h1] at h
    exact Bool.noConfusion h
  · rw [if_neg h1] at h
    by_cases h2 : is_candidate m a = true
    · rw [h2] at h
      simp only [Bool.not_true, Bool.false_eq_true, if_false] at h
      by_cases h3 : FACETPNT_CNT < (fl + (vtx m a).facets.length + (2 ^ 32 - 2)) % 2 ^ 32
      · rw [if_pos h3] at h
        exact Bool.noConfusion h
      · rw [if_neg h3] at h
        exact ⟨h1, h2, h3, h⟩
    · have h2f : is_candidate m a = false := by
        revert h2
        cases is_candidate m a <;> simp
      rw [h2f] at h
      simp only [Bool.not_false, if_true] at h
      exact Bool.noConfusion h

theorem find_adjacent_spec (m : Mesh α) (ivtx a : ℕ)
    (h : find_adjacent m ivtx = some a) :
    corner_ok m ivtx ((vtx m ivtx).facets.length) a = true ∧
    ∃ k ∈ (vtx m ivtx).facets, a ∈ corners (fct m k) :=
  find_adjacent_loop_spec _ m ivtx _ a h

theorem find_adjacent_in_range (m : Mesh α) (ivtx a : ℕ)
    (h : find_adjacent m ivtx = some a) : ivtx < m.p.length := by
  by_contra hge
  have hd : vtx m ivtx = default := List.getD_eq_default _ _ (by omega)
  unfold find_adjacent at h
  rw [hd] at h
  exact Option.noConfusion h

theorem merge_edge_eq_loop (m : Mesh α) (strt tgt : ℕ) :
    merge_edge m strt tgt = merge_loop ((vtx m tgt).facets.length) m strt tgt := rfl

/-- Claim C2: starting from a mesh satisfying the incidence invariant with
all incidence lists within `FACETPNT_CNT`, a single `merge_edge` on a start
vertex and a target found by `find_adjacent` leaves no live vertex's
incidence list with more than `FACETPNT_CNT` entries; and `find_adjacent`
only returns a neighbor whose merged valence
`vertex.valence + neighbor.valence - 2` does not exceed `FACETPNT_CNT`. -/
theorem spec_C2 (m : Mesh α) (s t : ℕ) (hinv : MeshInv m)
    (hbound : ∀ v, v < m.p.length → (vtx m v).facets.length ≤ FACETPNT_CNT)
    (hfind : find_adjacent m s = some t) :
    (∀ v, v < (merge_edge m s t).p.length →
      (vtx (merge_edge m s t) v).facets.length ≤ FACETPNT_CNT) ∧
    ((vtx m s).facets.length + (vtx m t).facets.length) - 2 ≤ FACETPNT_CNT := by
  obtain ⟨hok, k, hkmem, hkcor⟩ := find_adjacent_spec m s t hfind
  obtain ⟨hts, hcand, hval, hcm⟩ := corner_ok_facts m s _ t hok
  have hs : s < m.p.length := find_adjacent_in_range m s t hfind
  obtain ⟨hent, hnd, hrange, hdist, hinc⟩ := hinv
  have hinv2 : MeshInv m := ⟨hent, hnd, hrange, hdist, hinc⟩
  have hk : k < m.f.length := hent s hs k hkmem
  have ht : t < m.p.length := by
    obtain ⟨hr0, hr1, hr2⟩ := hrange k hk
    simp only [corners, List.mem_cons, List.not_mem_nil, or_false] at hkcor
    rcases hkcor with h | h | h <;> rw [h] <;> assumption
  have hktl : k ∈ (vtx m t).facets := (hinc k hk t ht).mpr hkcor
  have hslen : 1 ≤ (vtx m s).facets.length := by
    rcases hl : (vtx m s).facets with _ | _
    · rw [hl] at hkmem
      exact absurd hkmem (List.not_mem_nil k)
    · simp [hl]
  have htlen : 1 ≤ (vtx m t).facets.length := by
    rcases hl : (vtx m t).facets with _ | _
    · rw [hl] at hktl
      exact absurd hktl (List.not_mem_nil k)
    · simp [hl]
  have hF : FACETPNT_CNT = 16 := rfl
  have hsF := hbound s hs
  have htF := hbound t ht
  have hmod : ((vtx m s).facets.length + (vtx m t).facets.length + (2 ^ 32 - 2)) % 2 ^ 32
      = (vtx m s).facets.length + (vtx m t).facets.length - 2 := by
    omega
  have hval2 : (vtx m s).facets.length + (vtx m t).facets.length - 2 ≤ FACETPNT_CNT := by
    rw [hmod] at hval
    omega
  obtain ⟨ih1, ih2, ih3, ih4, ih5, ih6, ih7⟩ :=
    merge_loop_spec ((vtx m t).facets.length) m s t hinv2 hs ht
      (Ne.symm hts) (le_refl _)
  rw [merge_edge_eq_loop]
  refine ⟨?_, hval2⟩
  intro v hv
  rw [ih2] at hv
  by_cases hvt : v = t
  · subst hvt
    rw [ih3]
    simp
  · by_cases hvs : v = s
    · subst hvs
      obtain ⟨h7a, _⟩ := ih7 ⟨k, hkmem, hktl⟩
      omega
    · exact le_trans (ih4 v hv hvs) (hbound v hv)

/-- A flat unit square over ℤ: two coplanar triangles sharing the diagonal
from vertex 0 to vertex 2. -/
def meshSq : Mesh ℤ :=
  ⟨[⟨⟨0, 0, 0⟩, ⟨1, 0, 0⟩, ⟨1, 1, 0⟩, 0, 1, 2, ⟨0, 0, 1⟩⟩,
    ⟨⟨0, 0, 0⟩, ⟨1, 1, 0⟩, ⟨0, 1, 0⟩, 0, 2, 3, ⟨0, 0, 1⟩⟩],
   [⟨⟨0, 0, 0⟩, [0, 1]⟩, ⟨⟨1, 0, 0⟩, [0]⟩, ⟨⟨1, 1, 0⟩, [0, 1]⟩, ⟨⟨0, 1, 0⟩, [1]⟩]⟩

theorem spec_C2_witness :
    MeshInv meshSq ∧
    ((vtx meshSq 0).facets.length ≤ FACETPNT_CNT ∧
     (vtx meshSq 1).facets.length ≤ FACETPNT_CNT) ∧
    find_adjacent meshSq 0 = some 1 ∧
    (0 < (merge_edge meshSq 0 1).p.length ∧
      (vtx (merge_edge meshSq 0 1) 0).facets.length ≤ FACETPNT_CNT) ∧
    ((vtx meshSq 0).facets.length + (vtx meshSq 1).facets.length) - 2 ≤ FACETPNT_CNT := by
  refine ⟨by decide, ⟨by decide, by decide⟩, by decide, ⟨by decide, ?_⟩, ?_⟩
  · exact (spec_C2 meshSq 0 1 (by decide) (by decide) (by decide)).1 0 (by decide)
  · exact (spec_C2 meshSq 0 1 (by decide) (by decide) (by decide)).2

/-- Claim C4: `remove_facet` on a live facet of an indexed mesh satisfying
the incidence invariant leaves exactly one fewer live facet in the compact
prefix, moves the former last facet into the freed slot when the removed
facet was not last, keeps all other facets in place, leaves no incidence
entry at or past the new live count, and restores the incidence
invariant (which entails that the removed facet was detached from its
vertices' lists and the moved facet's vertices were updated). -/
theorem spec_C4 (m : Mesh α) (k : ℕ) (hinv : MeshInv m) (hk : k < m.f.length) :
    (remove_facet m k).f.length + 1 = m.f.length ∧
    (k ≠ m.f.length - 1 → fct (remove_facet m k) k = fct m (m.f.length - 1)) ∧
    (∀ j, j < m.f.length - 1 → j ≠ k → fct (remove_facet m k) j = fct m j) ∧
    (∀ v, v < (remove_facet m k).p.length →
      ∀ fi ∈ (vtx (remove_facet m k) v).facets, fi < (remove_facet m k).f.length) ∧
    IncidenceIff (remove_facet m k) := by
  have hminv := remove_facet_MeshInv m k hk hinv
  refine ⟨?_, ?_, ?_, hminv.1, hminv.2.2.2.2⟩
  · rw [remove_facet_f_length]
    omega
  · intro hkl
    rw [remove_facet_fct m k k hk (by omega), if_pos rfl]
  · intro j hj hjk
    rw [remove_facet_fct m k j hk hj, if_neg hjk]

theorem spec_C4_witness :
    MeshInv meshSq ∧ 0 < meshSq.f.length ∧
    (remove_facet meshSq 0).f.length + 1 = meshSq.f.length ∧
    ((0 : ℕ) ≠ meshSq.f.length - 1 ∧ fct (remove_facet meshSq 0) 0 = fct meshSq 1) ∧
    (0 < (remove_facet meshSq 0).p.length ∧
      ∀ fi ∈ (vtx (remove_facet meshSq 0) 0).facets, fi < (remove_facet meshSq 0).f.length) ∧
    IncidenceIff (remove_facet meshSq 0) := by
  obtain ⟨h1, h2, h3, h4, h5⟩ := spec_C4 meshSq 0 (by decide) (by decide)
  exact ⟨by decide, by decide, h1, ⟨by decide, h2 (by decide)⟩,
    ⟨by decide, h4 0 (by decide)⟩, h5⟩

theorem eqpnt_iff (p q : Pnt α) : eqpnt p q = true ↔ p = q := by
  unfold eqpnt
  rw [Bool.and_eq_true, Bool.and_eq_true]
  simp only [decide_eq_true_eq]
  constructor
  · rintro ⟨⟨hx, hy⟩, hz⟩
    exact Pnt.ext hx hy hz
  · rintro rfl
    exact ⟨⟨rfl, rfl⟩, rfl⟩

theorem pnt_normal_ne_of_not_deg (a b c : Pnt α)
    (h : (pnt_normal a b c).2 = false) : a ≠ b ∧ a ≠ c ∧ b ≠ c := by
  refine ⟨?_, ?_, ?_⟩ <;> intro he <;>
    rw [show (pnt_normal a b c).2 = true from
      (pnt_normal_deg a b c).mpr (coincident_cross_zero a b c (by tauto))] at h <;>
    exact Bool.noConfusion h

theorem find_pnt_some : ∀ (l : List (Vertex α)) (q : Pnt α) (i : ℕ),
    find_pnt q l = some i → i < l.length ∧ (l.getD i default).pnt = q := by
  intro l
  induction l with
  | nil => intro q i h; exact Option.noConfusion h
  | cons w ws ih =>
    intro q i h
    unfold find_pnt at h
    by_cases he : eqpnt w.pnt q = true
    · rw [if_pos he] at h
      cases h
      exact ⟨by simp, (eqpnt_iff _ _).mp he⟩
    · rw [if_neg he] at h
      rcases hf : find_pnt q ws with _ | i2
      · rw [hf] at h
        exact Option.noConfusion h
      · rw [hf] at h
        cases h
        obtain ⟨hlt, hpt⟩ := ih q i2 hf
        exact ⟨by simpa using hlt, by simpa using hpt⟩

theorem find_pnt_none : ∀ (l : List (Vertex α)) (q : Pnt α),
    find_pnt q l = none → ∀ i, i < l.length → (l.getD i default).pnt ≠ q := by
  intro l
  induction l with
  | nil => intro q _ i hi; simp at hi
  | cons w ws ih =>
    intro q h i hi
    unfold find_pnt at h
    by_cases he : eqpnt w.pnt q = true
    · rw [if_pos he] at h
      exact Option.noConfusion h
    · rw [if_neg he] at h
      cases i with
      | zero =>
        intro hq
        exact he ((eqpnt_iff _ _).mpr hq)
      | succ i2 =>
        have hn : find_pnt q ws = none := by
          rcases hf : find_pnt q ws with _ | i3
          · rfl
          · rw [hf] at h
            exact Option.noConfusion h
        simpa using ih q hn i2 (by simpa using hi)

theorem mesh_add_pnt_f (m : Mesh α) (q : Pnt α) : (mesh_add_pnt m q).2.f = m.f := by
  unfold mesh_add_pnt
  rcases h : find_pnt q m.p with _ | i <;> rfl

theorem mesh_add_pnt_plen (m : Mesh α) (q : Pnt α) :
    m.p.length ≤ (mesh_add_pnt m q).2.p.length := by
  unfold mesh_add_pnt
  rcases h : find_pnt q m.p with _ | i
  · simp
  · simp

theorem mesh_add_pnt_preserve (m : Mesh α) (q : Pnt α) :
    ∀ w, w < m.p.length → vtx (mesh_add_pnt m q).2 w = vtx m w := by
  intro w hw
  unfold mesh_add_pnt
  rcases h : find_pnt q m.p with _ | i
  · show (m.p ++ _).getD w default = _
    exact getD_append_left _ _ _ hw
  · rfl

theorem mesh_add_pnt_idx (m : Mesh α) (q : Pnt α) :
    (mesh_add_pnt m q).1 < (mesh_add_pnt m q).2.p.length ∧
    (vtx (mesh_add_pnt m q).2 (mesh_add_pnt m q).1).pnt = q := by
  unfold mesh_add_pnt
  rcases h : find_pnt q m.p with _ | i
  · constructor
    · simp
    · show ((m.p ++ _).getD m.p.length default).pnt = q
      rw [getD_append_right]
  · obtain ⟨hlt, hpt⟩ := find_pnt_some m.p q i h
    exact ⟨hlt, hpt⟩

theorem mesh_add_pnt_facets (m : Mesh α) (q : Pnt α) :
    ∀ w, w < (mesh_add_pnt m q).2.p.length →
      ((w < m.p.length ∧ (vtx (mesh_add_pnt m q).2 w).facets = (vtx m w).facets) ∨
        (vtx (mesh_add_pnt m q).2 w).facets = []) := by
  intro w hw
  by_cases hwm : w < m.p.length
  · exact Or.inl ⟨hwm, by rw [mesh_add_pnt_preserve m q w hwm]⟩
  · right
    revert hw
    unfold mesh_add_pnt
    rcases h : find_pnt q m.p with _ | i
    · intro hw
      simp only [List.length_append, List.length_cons, List.length_nil] at hw
      have hwe : w = m.p.length := by omega
      subst hwe
      show ((m.p ++ _).getD m.p.length default).facets = []
      rw [getD_append_right]
    · intro hw
      exact absurd hw (by simpa using hwm)

theorem mesh_add_pnt_distinct (m : Mesh α) (q : Pnt α)
    (hd : ∀ a b, a < b → b < m.p.length → (vtx m a).pnt ≠ (vtx m b).pnt) :
    ∀ a b, a < b → b < (mesh_add_pnt m q).2.p.length →
      (vtx (mesh_add_pnt m q).2 a).pnt ≠ (vtx (mesh_add_pnt m q).2 b).pnt := by
  intro a b hab hb
  unfold mesh_add_pnt at hb ⊢
  rcases h : find_pnt q m.p with _ | i
  · rw [h] at hb
    simp only [List.length_append, List.length_cons, List.length_nil] at hb
    by_cases hbm : b < m.p.length
    · have he1 : vtx { m with p := m.p ++ [⟨q, []⟩] } a = vtx m a := by
        show (m.p ++ _).getD a default = _
        exact getD_append_left _ _ _ (by omega)
      have he2 : vtx { m with p := m.p ++ [⟨q, []⟩] } b = vtx m b := by
        show (m.p ++ _).getD b default = _
        exact getD_append_left _ _ _ hbm
      rw [he1, he2]
      exact hd a b hab hbm
    · have hbe : b = m.p.length := by omega
      subst hbe
      have he1 : vtx { m with p := m.p ++ [⟨q, []⟩] } a = vtx m a := by
        show (m.p ++ _).getD a default = _
        exact getD_append_left _ _ _ (by omega)
      have he2 : vtx { m with p := m.p ++ [⟨q, []⟩] } m.p.length = ⟨q, []⟩ := by
        show (m.p ++ _).getD m.p.length default = _
        rw [getD_append_right]
      rw [he1, he2]
      exact find_pnt_none m.p q h a (by omega)
  · rw [h] at hb
    exact hd a b hab hb

theorem mesh_add_pnt_unique (m : Mesh α) (q : Pnt α)
    (hd : ∀ a b, a < b → b < m.p.length → (vtx m a).pnt ≠ (vtx m b).pnt) :
    ∀ w, w < (mesh_add_pnt m q).2.p.length →
      (vtx (mesh_add_pnt m q).2 w).pnt = q → w = (mesh_add_pnt m q).1 := by
  intro w hw hq
  by_contra hne
  obtain ⟨hi, hip⟩ := mesh_add_pnt_idx m q
  have := mesh_add_pnt_distinct m q hd
  rcases Nat.lt_or_ge w (mesh_add_pnt m q).1 with hlt | hge
  · exact this w _ hlt hi (by rw [hq, hip])
  · have hlt2 : (mesh_add_pnt m q).1 < w := by omega
    exact this _ w hlt2 hw (by rw [hq, hip])

theorem index_facet_step (m M : Mesh α) (j : ℕ)
    (hjn : j < m.f.length)
    (hflen : M.f.length = m.f.length)
    (hunproc : ∀ i, j ≤ i → i < m.f.length → fct M i = fct m i)
    (hent : ∀ v, v < M.p.length → ∀ fi ∈ (vtx M v).facets, fi < j)
    (hnd : ∀ v, v < M.p.length → ((vtx M v).facets).Nodup)
    (hrange : ∀ i, i < j → (fct M i).i0 < M.p.length ∧ (fct M i).i1 < M.p.length ∧
      (fct M i).i2 < M.p.length)
    (hdist : ∀ i, i < j → (fct M i).i0 ≠ (fct M i).i1 ∧ (fct M i).i1 ≠ (fct M i).i2 ∧
      (fct M i).i0 ≠ (fct M i).i2)
    (hiff : ∀ i, i < j → ∀ v, v < M.p.length →
      (i ∈ (vtx M v).facets ↔ v ∈ corners (fct M i)))
    (hpd : ∀ a b, a < b → b < M.p.length → (vtx M a).pnt ≠ (vtx M b).pnt)
    (hvne : (fct m j).v0 ≠ (fct m j).v1 ∧ (fct m j).v0 ≠ (fct m j).v2 ∧
      (fct m j).v1 ≠ (fct m j).v2) :
    ((index_facet M j).f.length = m.f.length ∧
     (∀ i, i < m.f.length → (fct (index_facet M j) i).v0 = (fct M i).v0 ∧
       (fct (index_facet M j) i).v1 = (fct M i).v1 ∧
       (fct (index_facet M j) i).v2 = (fct M i).v2) ∧
     (∀ i, j + 1 ≤ i → i < m.f.length → fct (index_facet M j) i = fct m i) ∧
     (∀ v, v < (index_facet M j).p.length →
       ∀ fi ∈ (vtx (index_facet M j) v).facets, fi < j + 1) ∧
     (∀ v, v < (index_facet M j).p.length → ((vtx (index_facet M j) v).facets).Nodup) ∧
     (∀ i, i < j + 1 → (fct (index_facet M j) i).i0 < (index_facet M j).p.length ∧
       (fct (index_facet M j) i).i1 < (index_facet M j).p.length ∧
       (fct (index_facet M j) i).i2 < (index_facet M j).p.length) ∧
     (∀ i, i < j + 1 → (fct (index_facet M j) i).i0 ≠ (fct (index_facet M j) i).i1 ∧
       (fct (index_facet M j) i).i1 ≠ (fct (index_facet M j) i).i2 ∧
       (fct (index_facet M j) i).i0 ≠ (fct (index_facet M j) i).i2) ∧
     (∀ i, i < j + 1 → ∀ v, v < (index_facet M j).p.length →
       (i ∈ (vtx (index_facet M j) v).facets ↔ v ∈ corners (fct (index_facet M j) i))) ∧
     (∀ a b, a < b → b < (index_facet M j).p.length →
       (vtx (index_facet M j) a).pnt ≠ (vtx (index_facet M j) b).pnt) ∧
     M.p.length ≤ (index_facet M j).p.length) := by
  have hf0m : fct M j = fct m j := hunproc j (le_refl j) hjn
  have hIF : index_facet M j =
      attach (attach (attach
        { (mesh_add_pnt (mesh_add_pnt (mesh_add_pnt M (fct M j).v0).2
            (fct M j).v1).2 (fct M j).v2).2 with
          f := (mesh_add_pnt (mesh_add_pnt (mesh_add_pnt M (fct M j).v0).2
            (fct M j).v1).2 (fct M j).v2).2.f.set j
            { fct M j with
              i0 := (mesh_add_pnt M (fct M j).v0).1,
              i1 := (mesh_add_pnt (mesh_add_pnt M (fct M j).v0).2 (fct M j).v1).1,
              i2 := (mesh_add_pnt (mesh_add_pnt (mesh_add_pnt M (fct M j).v0).2
                (fct M j).v1).2 (fct M j).v2).1 } }
        (mesh_add_pnt M (fct M j).v0).1 j)
        (mesh_add_pnt (mesh_add_pnt M (fct M j).v0).2 (fct M j).v1).1 j)
        (mesh_add_pnt (mesh_add_pnt (mesh_add_pnt M (fct M j).v0).2
          (fct M j).v1).2 (fct M j).v2).1 j := rfl
  rw [hIF]
  generalize hR0 : mesh_add_pnt M (fct M j).v0 = R0 at *
  generalize hR1 : mesh_add_pnt R0.2 (fct M j).v1 = R1 at *
  generalize hR2 : mesh_add_pnt R1.2 (fct M j).v2 = R2 at *
  have hl0 : M.p.length ≤ R0.2.p.length := by rw [← hR0]; exact mesh_add_pnt_plen _ _
  have hl1 : R0.2.p.length ≤ R1.2.p.length := by rw [← hR1]; exact mesh_add_pnt_plen _ _
  have hl2 : R1.2.p.length ≤ R2.2.p.length := by rw [← hR2]; exact mesh_add_pnt_plen _ _
  have hi0 : R0.1 < R0.2.p.length ∧ (vtx R0.2 R0.1).pnt = (fct M j).v0 := by
    rw [← hR0]; exact mesh_add_pnt_idx _ _
  have hi1 : R1.1 < R1.2.p.length ∧ (vtx R1.2 R1.1).pnt = (fct M j).v1 := by
    rw [← hR1]; exact mesh_add_pnt_idx _ _
  have hi2 : R2.1 < R2.2.p.length ∧ (vtx R2.2 R2.1).pnt = (fct M j).v2 := by
    rw [← hR2]; exact mesh_add_pnt_idx _ _
  have hp0 : ∀ w, w < M.p.length → vtx R0.2 w = vtx M w := by
    intro w hw; rw [← hR0]; exact mesh_add_pnt_preserve _ _ w hw
  have hp1 : ∀ w, w < R0.2.p.length → vtx R1.2 w = vtx R0.2 w := by
    intro w hw; rw [← hR1]; exact mesh_add_pnt_preserve _ _ w hw
  have hp2 : ∀ w, w < R1.2.p.length → vtx R2.2 w = vtx R1.2 w := by
    intro w hw; rw [← hR2]; exact mesh_add_pnt_preserve _ _ w hw
  have hq0 : (vtx R2.2 R0.1).pnt = (fct M j).v0 := by
    rw [hp2 _ (lt_of_lt_of_le hi0.1 hl1), hp1 _ hi0.1, hi0.2]
  have hq1 : (vtx R2.2 R1.1).pnt = (fct M j).v1 := by
    rw [hp2 _ hi1.1, hi1.2]
  have hq2 : (vtx R2.2 R2.1).pnt = (fct M j).v2 := hi2.2
  have hvne2 : (fct M j).v0 ≠ (fct M j).v1 ∧ (fct M j).v0 ≠ (fct M j).v2 ∧
      (fct M j).v1 ≠ (fct M j).v2 := by rw [hf0m]; exact hvne
  have hpd0 : ∀ a b, a < b → b < R0.2.p.length →
      (vtx R0.2 a).pnt ≠ (vtx R0.2 b).pnt := by
    intro a b hab hb; rw [← hR0] at hb ⊢; exact mesh_add_pnt_distinct _ _ hpd a b hab hb
  have hpd1 : ∀ a b, a < b → b < R1.2.p.length →
      (vtx R1.2 a).pnt ≠ (vtx R1.2 b).pnt := by
    intro a b hab hb; rw [← hR1] at hb ⊢; exact mesh_add_pnt_distinct _ _ hpd0 a b hab hb
  have hpd2 : ∀ a b, a < b → b < R2.2.p.length →
      (vtx R2.2 a).pnt ≠ (vtx R2.2 b).pnt := by
    intro a b hab hb; rw [← hR2] at hb ⊢; exact mesh_add_pnt_distinct _ _ hpd1 a b hab hb
  have ha0 : R0.1 < R2.2.p.length := lt_of_lt_of_le hi0.1 (le_trans hl1 hl2)
  have ha1 : R1.1 < R2.2.p.length := lt_of_lt_of_le hi1.1 hl2
  have ha2 : R2.1 < R2.2.p.length := hi2.1
  have hpdne : ∀ a b : ℕ, a < R2.2.p.length → b < R2.2.p.length →
      (vtx R2.2 a).pnt ≠ (vtx R2.2 b).pnt → a ≠ b := by
    intro a b _ _ hne he
    exact hne (by rw [he])
  have hne01 : R0.1 ≠ R1.1 :=
    hpdne _ _ ha0 ha1 (by rw [hq0, hq1]; exact hvne2.1)
  have hne02 : R0.1 ≠ R2.1 :=
    hpdne _ _ ha0 ha2 (by rw [hq0, hq2]; exact hvne2.2.1)
  have hne12 : R1.1 ≠ R2.1 :=
    hpdne _ _ ha1 ha2 (by rw [hq1, hq2]; exact hvne2.2.2)
  have hfacM2 : ∀ w, w < R2.2.p.length →
      ((w < M.p.length ∧ (vtx R2.2 w).facets = (vtx M w).facets) ∨
        (vtx R2.2 w).facets = []) := by
    intro w hw
    have h2 : (w < R1.2.p.length ∧ (vtx R2.2 w).facets = (vtx R1.2 w).facets) ∨
        (vtx R2.2 w).facets = [] := by
      rw [← hR2] at hw ⊢; exact mesh_add_pnt_facets _ _ w hw
    rcases h2 with ⟨hw1, he2⟩ | he2
    · have h1 : (w < R0.2.p.length ∧ (vtx R1.2 w).facets = (vtx R0.2 w).facets) ∨
          (vtx R1.2 w).facets = [] := by
        rw [← hR1] at hw1 ⊢; exact mesh_add_pnt_facets _ _ w hw1
      rcases h1 with ⟨hw0, he1⟩ | he1
      · have h0 : (w < M.p.length ∧ (vtx R0.2 w).facets = (vtx M w).facets) ∨
            (vtx R0.2 w).facets = [] := by
          rw [← hR0] at hw0 ⊢; exact mesh_add_pnt_facets _ _ w hw0
        rcases h0 with ⟨hwM, he0⟩ | he0
        · exact Or.inl ⟨hwM, by rw [he2, he1, he0]⟩
        · exact Or.inr (by rw [he2, he1, he0])
      · exact Or.inr (by rw [he2, he1])
    · exact Or.inr he2
  have hM2f : R2.2.f = M.f := by
    have e2 : R2.2.f = R1.2.f := by rw [← hR2]; exact mesh_add_pnt_f _ _
    have e1 : R1.2.f = R0.2.f := by rw [← hR1]; exact mesh_add_pnt_f _ _
    have e0 : R0.2.f = M.f := by rw [← hR0]; exact mesh_add_pnt_f _ _
    rw [e2, e1, e0]
  have hjM : j < R2.2.f.length := by rw [hM2f, hflen]; exact hjn
  -- the final mesh
  set F1 : Facet α := { fct M j with i0 := R0.1, i1 := R1.1, i2 := R2.1 } with hF1def
  set MM : Mesh α := { R2.2 with f := R2.2.f.set j F1 } with hMMdef
  set N : Mesh α := attach (attach (attach MM R0.1 j) R1.1 j) R2.1 j with hNdef
  have hNp : ∀ w, w < R2.2.p.length →
      vtx N w = (if w = R0.1 ∨ w = R1.1 ∨ w = R2.1
        then { vtx R2.2 w with facets := (vtx R2.2 w).facets ++ [j] }
        else vtx R2.2 w) := by
    intro w hw
    rw [hNdef, vtx_attach3 MM j _ _ _ w hne01 hne12 hne02
      (by rw [hMMdef, p_length_mk_f]; exact hw), hMMdef, vtx_mk_f]
  have hNplen : N.p.length = R2.2.p.length := by
    rw [hNdef, attach_p_length, attach_p_length, attach_p_length, hMMdef, p_length_mk_f]
  have hNfct : ∀ i, i < m.f.length → fct N i = (if i = j then F1 else fct M i) := by
    intro i hi
    rw [hNdef, fct_attach, fct_attach, fct_attach, hMMdef]
    show (R2.2.f.set j F1).getD i default = _
    by_cases hij : i = j
    · subst hij
      rw [if_pos rfl]
      exact getD_set_self _ _ _ hjM
    · rw [if_neg hij]
      have he : (R2.2.f.set j F1).getD i default = R2.2.f.getD i default :=
        getD_set_ne _ _ _ _ (fun hx => hij hx.symm)
      rw [he, hM2f]
      rfl
  have hNflen : N.f.length = m.f.length := by
    rw [hNdef]
    show MM.f.length = _
    rw [hMMdef]
    show (R2.2.f.set j F1).length = _
    rw [List.length_set, hM2f, hflen]
  have hF1c : corners F1 = [R0.1, R1.1, R2.1] := rfl
  refine ⟨hNflen, ?_, ?_, ?_, ?_, ?_, ?_, ?_, ?_, ?_⟩
  · intro i hi
    rw [hNfct i hi]
    by_cases hij : i = j
    · subst hij
      rw [if_pos rfl]
      exact ⟨rfl, rfl, rfl⟩
    · rw [if_neg hij]
      exact ⟨rfl, rfl, rfl⟩
  · intro i hji hi
    rw [hNfct i hi, if_neg (by omega)]
    exact hunproc i (by omega) hi
  · intro v hv fi hfi
    rw [hNplen] at hv
    rw [hNp v hv] at hfi
    have hmain : fi ∈ (vtx R2.2 v).facets ∨ fi = j := by
      split_ifs at hfi
      · dsimp only at hfi
        rcases List.mem_append.mp hfi with h | h
        · exact Or.inl h
        · exact Or.inr (List.mem_singleton.mp h)
      · exact Or.inl hfi
    rcases hmain with h | h
    · rcases hfacM2 v hv with ⟨hvM, he⟩ | he
      · rw [he] at h
        have := hent v hvM fi h
        omega
      · rw [he] at h
        exact absurd h (List.not_mem_nil fi)
    · omega
  · intro v hv
    rw [hNplen] at hv
    rw [hNp v hv]
    have hndv : ((vtx R2.2 v).facets).Nodup := by
      rcases hfacM2 v hv with ⟨hvM, he⟩ | he
      · rw [he]
        exact hnd v hvM
      · rw [he]
        exact List.nodup_nil
    have hjnot : j ∉ (vtx R2.2 v).facets := by
      intro hj
      rcases hfacM2 v hv with ⟨hvM, he⟩ | he
      · rw [he] at hj
        have := hent v hvM j hj
        omega
      · rw [he] at hj
        exact absurd hj (List.not_mem_nil j)
    split_ifs
    · dsimp only
      exact nodup_append_singleton hndv hjnot
    · exact hndv
  · intro i hi
    rw [hNplen, hNfct i (by omega)]
    by_cases hij : i = j
    · subst hij
      rw [if_pos rfl]
      exact ⟨ha0, ha1, ha2⟩
    · rw [if_neg hij]
      obtain ⟨h0, h1, h2⟩ := hrange i (by omega)
      exact ⟨lt_of_lt_of_le h0 (le_trans hl0 (le_trans hl1 hl2)),
        lt_of_lt_of_le h1 (le_trans hl0 (le_trans hl1 hl2)),
        lt_of_lt_of_le h2 (le_trans hl0 (le_trans hl1 hl2))⟩
  · intro i hi
    rw [hNfct i (by omega)]
    by_cases hij : i = j
    · subst hij
      rw [if_pos rfl]
      exact ⟨hne01, hne12, hne02⟩
    · rw [if_neg hij]
      exact hdist i (by omega)
  · intro i hi v hv
    rw [hNplen] at hv
    rw [hNp v hv, hNfct i (by omega)]
    by_cases hij : i = j
    · subst hij
      rw [if_pos rfl, hF1c]
      have hjnot : i ∉ (vtx R2.2 v).facets := by
        intro hj
        rcases hfacM2 v hv with ⟨hvM, he⟩ | he
        · rw [he] at hj
          have := hent v hvM i hj
          omega
        · rw [he] at hj
          exact absurd hj (List.not_mem_nil i)
      by_cases hvp : v = R0.1 ∨ v = R1.1 ∨ v = R2.1
      · rw [if_pos hvp]
        dsimp only
        constructor
        · intro _
          simpa using hvp
        · intro _
          exact List.mem_append.mpr (Or.inr (List.mem_singleton.mpr rfl))
      · rw [if_neg hvp]
        constructor
        · intro hj
          exact absurd hj hjnot
        · intro hc
          exact absurd (by simpa using hc) hvp
    · rw [if_neg hij]
      have hcsmall : v ∈ corners (fct M i) → v < M.p.length := by
        intro hc
        obtain ⟨h0, h1, h2⟩ := hrange i (by omega)
        simp only [corners, List.mem_cons, List.not_mem_nil, or_false] at hc
        rcases hc with h | h | h <;> rw [h] <;> assumption
      have hvz : ∀ w, w < M.p.length → (vtx R2.2 w).facets = (vtx M w).facets := by
        intro w hw
        rw [hp2 w (lt_of_lt_of_le hw (le_trans hl0 hl1)),
          hp1 w (lt_of_lt_of_le hw hl0), hp0 w hw]
      have hstep : i ∈ (vtx R2.2 v).facets ↔ v ∈ corners (fct M i) := by
        by_cases hvM : v < M.p.length
        · rw [hvz v hvM]
          exact hiff i (by omega) v hvM
        · constructor
          · intro hj
            rcases hfacM2 v hv with ⟨hvM2, _⟩ | he
            · exact absurd hvM2 hvM
            · rw [he] at hj
              exact absurd hj (List.not_mem_nil i)
          · intro hc
            exact absurd (hcsmall hc) hvM
      split_ifs with hvp
      · dsimp only
        rw [List.mem_append, List.mem_singleton]
        simp only [hij, or_false]
        exact hstep
      · exact hstep
  · intro a b hab hb
    rw [hNplen] at hb
    have hpa : (vtx N a).pnt = (vtx R2.2 a).pnt := by
      rw [hNp a (by omega)]
      split_ifs <;> rfl
    have hpb : (vtx N b).pnt = (vtx R2.2 b).pnt := by
      rw [hNp b hb]
      split_ifs <;> rfl
    rw [hpa, hpb]
    exact hpd2 a b hab hb
  · rw [hNplen]
    exact le_trans hl0 (le_trans hl1 hl2)

/-- The partial indexing pass: `index_mesh` restricted to the first `j`
facets of the dense array. -/
def index_upto (m : Mesh α) (j : ℕ) : Mesh α :=
  (List.range j).foldl index_facet m

theorem index_upto_succ (m : Mesh α) (j : ℕ) :
    index_upto m (j + 1) = index_facet (index_upto m j) j := by
  unfold index_upto
  rw [List.range_succ, List.foldl_append]
  rfl

theorem index_fold_inv (m : Mesh α) (hp : m.p = [])
    (hvne : ∀ i, i < m.f.length → (fct m i).v0 ≠ (fct m i).v1 ∧
      (fct m i).v0 ≠ (fct m i).v2 ∧ (fct m i).v1 ≠ (fct m i).v2) :
    ∀ j, j ≤ m.f.length →
      ((index_upto m j).f.length = m.f.length ∧
       (∀ i, j ≤ i → i < m.f.length → fct (index_upto m j) i = fct m i) ∧
       (∀ v, v < (index_upto m j).p.length →
         ∀ fi ∈ (vtx (index_upto m j) v).facets, fi < j) ∧
       (∀ v, v < (index_upto m j).p.length → ((vtx (index_upto m j) v).facets).Nodup) ∧
       (∀ i, i < j → (fct (index_upto m j) i).i0 < (index_upto m j).p.length ∧
         (fct (index_upto m j) i).i1 < (index_upto m j).p.length ∧
         (fct (index_upto m j) i).i2 < (index_upto m j).p.length) ∧
       (∀ i, i < j → (fct (index_upto m j) i).i0 ≠ (fct (index_upto m j) i).i1 ∧
         (fct (index_upto m j) i).i1 ≠ (fct (index_upto m j) i).i2 ∧
         (fct (index_upto m j) i).i0 ≠ (fct (index_upto m j) i).i2) ∧
       (∀ i, i < j → ∀ v, v < (index_upto m j).p.length →
         (i ∈ (vtx (index_upto m j) v).facets ↔ v ∈ corners (fct (index_upto m j) i))) ∧
       (∀ a b, a < b → b < (index_upto m j).p.length →
         (vtx (index_upto m j) a).pnt ≠ (vtx (index_upto m j) b).pnt)) := by
  intro j
  induction j with
  | zero =>
    intro _
    have hp0 : m.p.length = 0 := by rw [hp]; rfl
    have h0 : index_upto m 0 = m := rfl
    rw [h0]
    refine ⟨rfl, fun i _ _ => rfl, ?_, ?_, ?_, ?_, ?_, ?_⟩
    · intro v hv fi _
      exact absurd hv (by omega)
    · intro v hv
      exact absurd hv (by omega)
    · intro i hi
      exact absurd hi (by omega)
    · intro i hi
      exact absurd hi (by omega)
    · intro i hi v hv
      exact absurd hi (by omega)
    · intro a b hab hb
      exact absurd hb (by omega)
  | succ j ih =>
    intro hj1
    have hjn : j < m.f.length := by omega
    obtain ⟨hflen, hunproc, hent, hnd, hrange, hdist, hiff, hpd⟩ := ih (by omega)
    obtain ⟨c1, c2, c3, c4, c5, c6, c7, c8, c9, c10⟩ :=
      index_facet_step m (index_upto m j) j hjn hflen hunproc hent hnd hrange
        hdist hiff hpd (hvne j hjn)
    rw [index_upto_succ]
    exact ⟨c1, c3, c4, c5, c6, c7, c8, c9⟩

/-- Claim C3: the spec's incidence invariant — a facet is on a vertex's
incidence list iff that vertex's index is among the facet's corner
indices — is established by `index_mesh` on an unindexed mesh whose
facets are all non-degenerate (pairwise-distinct corner coordinates), and
is preserved by `remove_facet` on a live facet, by `move_facet_vertex`
under its preconditions, and by `merge_edge` on distinct live vertices,
each starting from a mesh satisfying the full structural invariant. -/
theorem spec_C3 (m : Mesh α) :
    (m.p = [] →
      (∀ i, i < m.f.length → (fct m i).v0 ≠ (fct m i).v1 ∧
        (fct m i).v0 ≠ (fct m i).v2 ∧ (fct m i).v1 ≠ (fct m i).v2) →
      IncidenceIff (index_mesh m)) ∧
    (∀ k, MeshInv m → k < m.f.length → IncidenceIff (remove_facet m k)) ∧
    (∀ k frm dst, MeshInv m → k < m.f.length → frm < m.p.length →
      dst < m.p.length → frm ≠ dst → frm ∈ corners (fct m k) →
      dst ∉ corners (fct m k) →
      IncidenceIff (move_facet_vertex m k frm dst).2) ∧
    (∀ s t, MeshInv m → s < m.p.length → t < m.p.length → s ≠ t →
      IncidenceIff (merge_edge m s t)) := by
  refine ⟨?_, ?_, ?_, ?_⟩
  · intro hp hvne
    obtain ⟨hflen, _, _, _, _, _, hiff, _⟩ :=
      index_fold_inv m hp hvne m.f.length (le_refl _)
    intro k hk v hv
    have hme : index_mesh m = index_upto m m.f.length := rfl
    rw [hme] at hk hv ⊢
    exact hiff k (by omega) v hv
  · intro k hinv hk
    exact (remove_facet_MeshInv m k hk hinv).2.2.2.2
  · intro k frm dst hinv hk hf hd hfd hfc hdc
    exact (move_MeshInv m k frm dst hinv hk hf hd hfd hfc hdc).2.2.2.2
  · intro s t hinv hs ht hst
    rw [merge_edge_eq_loop]
    exact (merge_loop_spec ((vtx m t).facets.length) m s t hinv hs ht hst
      (le_refl _)).1.2.2.2.2

/-- An unindexed triangle soup over ℤ: two triangles sharing two corner
coordinates, point list empty, corner indices uninitialised (0). -/
def meshSoup : Mesh ℤ :=
  ⟨[⟨⟨0, 0, 0⟩, ⟨1, 0, 0⟩, ⟨1, 1, 0⟩, 0, 0, 0, ⟨0, 0, 0⟩⟩,
    ⟨⟨0, 0, 0⟩, ⟨1, 1, 0⟩, ⟨0, 1, 0⟩, 0, 0, 0, ⟨0, 0, 0⟩⟩], []⟩

theorem spec_C3_witness :
    (meshSoup.p = [] ∧ IncidenceIff (index_mesh meshSoup)) ∧
    (MeshInv meshSq ∧ IncidenceIff (remove_facet meshSq 0)) ∧
    IncidenceIff (move_facet_vertex meshSq 0 1 3).2 ∧
    IncidenceIff (merge_edge meshSq 0 1) := by
  refine ⟨⟨rfl, ?_⟩, ⟨by decide, ?_⟩, ?_, ?_⟩
  · exact (spec_C3 meshSoup).1 rfl (by decide)
  · exact (spec_C3 meshSq).2.1 0 (by decide) (by decide)
  · exact (spec_C3 meshSq).2.2.1 0 1 3 (by decide) (by decide) (by decide)
      (by decide) (by decide) (by decide) (by decide)
  · exact (spec_C3 meshSq).2.2.2 0 1 (by decide) (by decide) (by decide)
      (by decide)

theorem merge_case_facts (m : Mesh α) (v t : ℕ) (hinv : MeshInv m)
    (hfind : find_adjacent m v = some t) :
    MeshInv (merge_edge m v t) ∧
    (merge_edge m v t).p.length = m.p.length ∧
    totalValence (merge_edge m v t) + 3 ≤ totalValence m := by
  obtain ⟨hok, k, hkmem, hkcor⟩ := find_adjacent_spec m v t hfind
  obtain ⟨hts, hcand, hval, hcm⟩ := corner_ok_facts m v _ t hok
  have hs : v < m.p.length := find_adjacent_in_range m v t hfind
  obtain ⟨hent, hnd, hrange, hdist, hinc⟩ := hinv
  have hinv2 : MeshInv m := ⟨hent, hnd, hrange, hdist, hinc⟩
  have hk : k < m.f.length := hent v hs k hkmem
  have ht : t < m.p.length := by
    obtain ⟨hr0, hr1, hr2⟩ := hrange k hk
    simp only [corners, List.mem_cons, List.not_mem_nil, or_false] at hkcor
    rcases hkcor with h | h | h <;> rw [h] <;> assumption
  have hktl : k ∈ (vtx m t).facets := (hinc k hk t ht).mpr hkcor
  obtain ⟨ih1, ih2, ih3, ih4, ih5, ih6, ih7⟩ :=
    merge_loop_spec ((vtx m t).facets.length) m v t hinv2 hs ht
      (Ne.symm hts) (le_refl _)
  rw [merge_edge_eq_loop]
  exact ⟨ih1, ih2, (ih7 ⟨k, hkmem, hktl⟩).2⟩

theorem simplify_loop_term : ∀ (fuel : ℕ) (s : Mesh α × ℕ), MeshInv s.1 →
    s.2 ≤ s.1.p.length →
    totalValence s.1 + s.1.p.length ≤ fuel + s.2 →
    (MeshInv (simplify_loop fuel s).1 ∧
     s.2 ≤ (simplify_loop fuel s).2 ∧
     (simplify_loop fuel s).2 = (simplify_loop fuel s).1.p.length) := by
  intro fuel
  induction fuel with
  | zero =>
    intro s hinv hc hfuel
    have hz : simplify_loop 0 s = s := rfl
    rw [hz]
    exact ⟨hinv, le_refl _, by omega⟩
  | succ fuel ih =>
    intro s hinv hc hfuel
    by_cases hlt : s.2 < s.1.p.length
    · have he : simplify_loop (fuel + 1) s = simplify_loop fuel (simplify_step s) := by
        show (if s.2 < s.1.p.length then simplify_loop fuel (simplify_step s) else s) = _
        rw [if_pos hlt]
      rw [he]
      by_cases hcand : is_candidate s.1 s.2 = true
      · rcases hfa : find_adjacent s.1 s.2 with _ | t
        · have hstep : simplify_step s = (s.1, s.2 + 1) := by
            unfold simplify_step
            rw [if_pos hlt, if_pos hcand, hfa]
          rw [hstep]
          have hIH := ih (s.1, s.2 + 1) hinv
            (by show s.2 + 1 ≤ s.1.p.length; omega)
            (by show totalValence s.1 + s.1.p.length ≤ fuel + (s.2 + 1); omega)
          exact ⟨hIH.1, by have := hIH.2.1; omega, hIH.2.2⟩
        · have hstep : simplify_step s = (merge_edge s.1 s.2 t, s.2) := by
            unfold simplify_step
            rw [if_pos hlt, if_pos hcand, hfa]
          rw [hstep]
          obtain ⟨hm1, hm2, hm3⟩ := merge_case_facts s.1 s.2 t hinv hfa
          have hIH := ih (merge_edge s.1 s.2 t, s.2) hm1
            (by show s.2 ≤ (merge_edge s.1 s.2 t).p.length; omega)
            (by show totalValence (merge_edge s.1 s.2 t) +
              (merge_edge s.1 s.2 t).p.length ≤ fuel + s.2; omega)
          exact ⟨hIH.1, hIH.2.1, hIH.2.2⟩
      · have hstep : simplify_step s = (s.1, s.2 + 1) := by
          unfold simplify_step
          rw [if_pos hlt, if_neg hcand]
        rw [hstep]
        have hIH := ih (s.1, s.2 + 1) hinv
          (by show s.2 + 1 ≤ s.1.p.length; omega)
          (by show totalValence s.1 + s.1.p.length ≤ fuel + (s.2 + 1); omega)
        exact ⟨hIH.1, by have := hIH.2.1; omega, hIH.2.2⟩
    · have he : simplify_loop (fuel + 1) s = s := by
        show (if s.2 < s.1.p.length then simplify_loop fuel (simplify_step s) else s) = _
        rw [if_neg hlt]
      rw [he]
      exact ⟨hinv, le_refl _, by omega⟩

/-- Claim C9: the `simplify_mesh` cursor loop does not advance the cursor
when the vertex is a candidate and `find_adjacent` succeeds (it merges
instead), advances by one otherwise, stops once the cursor reaches the
vertex count, never moves the cursor backwards (a single forward pass),
and on an indexed mesh satisfying the structural invariant it terminates:
the fuel `totalValence + vertex count` suffices to drive the cursor to the
vertex count. -/
theorem spec_C9 (m : Mesh α) :
    (∀ v t, v < m.p.length → is_candidate m v = true → find_adjacent m v = some t →
      simplify_step (m, v) = (merge_edge m v t, v)) ∧
    (∀ v, v < m.p.length → (is_candidate m v = false ∨ find_adjacent m v = none) →
      simplify_step (m, v) = (m, v + 1)) ∧
    (∀ fuel v, m.p.length ≤ v → simplify_loop fuel (m, v) = (m, v)) ∧
    (∀ s : Mesh α × ℕ, s.2 ≤ (simplify_step s).2) ∧
    (MeshInv m → m.p ≠ [] →
      simplify_mesh m = (simplify_loop (totalValence m + m.p.length) (m, 0)).1 ∧
      (simplify_loop (totalValence m + m.p.length) (m, 0)).2 =
        (simplify_loop (totalValence m + m.p.length) (m, 0)).1.p.length) := by
  refine ⟨?_, ?_, ?_, ?_, ?_⟩
  · intro v t hv hcand hfa
    unfold simplify_step
    dsimp only
    rw [if_pos hv, if_pos hcand, hfa]
  · intro v hv hor
    unfold simplify_step
    dsimp only
    rw [if_pos hv]
    rcases hor with hcand | hfa
    · have hnc : ¬ is_candidate m v = true := by
        rw [hcand]
        exact fun h => Bool.noConfusion h
      rw [if_neg hnc]
    · by_cases hcand : is_candidate m v = true
      · rw [if_pos hcand, hfa]
      · rw [if_neg hcand]
  · intro fuel v hge
    rcases fuel with _ | fuel
    · rfl
    · show (if (m, v).2 < (m, v).1.p.length then
        simplify_loop fuel (simplify_step (m, v)) else (m, v)) = (m, v)
      rw [if_neg (show ¬ v < m.p.length by omega)]
  · intro s
    unfold simplify_step
    by_cases hlt : s.2 < s.1.p.length
    · rw [if_pos hlt]
      by_cases hcand : is_candidate s.1 s.2 = true
      · rw [if_pos hcand]
        rcases find_adjacent s.1 s.2 with _ | t
        · dsimp only
          omega
        · dsimp only
          omega
      · rw [if_neg hcand]
        dsimp only
        omega
    · rw [if_neg hlt]
  · intro hinv hne
    have hfalse : m.p.isEmpty = false := by
      rcases hp : m.p with _ | ⟨a, l⟩
      · exact absurd hp hne
      · rfl
    have hm0 : (if m.p.isEmpty then index_mesh m else m) = m := by
      rw [hfalse]
      rfl
    have hdef : simplify_mesh m =
        (simplify_loop (totalValence (if m.p.isEmpty then index_mesh m else m) +
          (if m.p.isEmpty then index_mesh m else m).p.length)
          ((if m.p.isEmpty then index_mesh m else m), 0)).1 := rfl
    have hterm := simplify_loop_term (totalValence m + m.p.length) (m, 0) hinv
      (Nat.zero_le _)
      (by show totalValence m + m.p.length ≤ totalValence m + m.p.length + 0; omega)
    refine ⟨?_, hterm.2.2⟩
    rw [hdef, hm0]

/-- A folded pair of triangles over ℤ: the two facets on vertex 0 have
opposed cached normals, so vertex 0 is not a merge candidate. -/
def meshFold : Mesh ℤ :=
  ⟨[⟨⟨0, 0, 0⟩, ⟨1, 0, 0⟩, ⟨1, 1, 0⟩, 0, 1, 2, ⟨0, 0, 1⟩⟩,
    ⟨⟨0, 0, 0⟩, ⟨0, 1, 0⟩, ⟨1, 1, 0⟩, 0, 3, 2, ⟨0, 0, -1⟩⟩],
   [⟨⟨0, 0, 0⟩, [0, 1]⟩, ⟨⟨1, 0, 0⟩, [0]⟩, ⟨⟨1, 1, 0⟩, [0, 1]⟩, ⟨⟨0, 1, 0⟩, [1]⟩]⟩

theorem spec_C9_witness :
    (0 < meshSq.p.length ∧ is_candidate meshSq 0 = true ∧
      find_adjacent meshSq 0 = some 1 ∧
      simplify_step (meshSq, 0) = (merge_edge meshSq 0 1, 0)) ∧
    (0 < meshFold.p.length ∧ is_candidate meshFold 0 = false ∧
      simplify_step (meshFold, 0) = (meshFold, 1)) ∧
    simplify_loop 5 (meshSq, meshSq.p.length) = (meshSq, meshSq.p.length) ∧
    (0 : ℕ) ≤ (simplify_step (meshSq, 0)).2 ∧
    (MeshInv meshSq ∧ meshSq.p ≠ [] ∧
      simplify_mesh meshSq =
        (simplify_loop (totalValence meshSq + meshSq.p.length) (meshSq, 0)).1 ∧
      (simplify_loop (totalValence meshSq + meshSq.p.length) (meshSq, 0)).2 =
        (simplify_loop (totalValence meshSq + meshSq.p.length) (meshSq, 0)).1.p.length) := by
  refine ⟨⟨by decide, by decide, by decide, ?_⟩, ⟨by decide, by decide, ?_⟩,
    ?_, ?_, ⟨by decide, by decide, ?_, ?_⟩⟩
  · exact (spec_C9 meshSq).1 0 1 (by decide) (by decide) (by decide)
  · exact (spec_C9 meshFold).2.1 0 (by decide) (Or.inl (by decide))
  · exact (spec_C9 meshSq).2.2.1 5 meshSq.p.length (le_refl _)
  · exact (spec_C9 meshSq).2.2.2.1 (meshSq, 0)
  · exact ((spec_C9 meshSq).2.2.2.2 (by decide) (by decide)).1
  · exact ((spec_C9 meshSq).2.2.2.2 (by decide) (by decide)).2
